import Mathlib

/-!
Verification development for the repuragent workflow orchestration and
streaming-reconciliation engine.  The definitions below are a shallow
embedding of the Python source files:

* `src/core/supervisor/supervisor.py`   (routing and human-approval nodes)
* `src/app/ui/formatters.py`            (streaming demultiplexer, tool blocks)
* `src/app/ui/components.py`            (conversation-list delete guard)
* `src/backend/memory/episodic_memory/thread_manager.py` (registry, checkpoints)
* `src/app/langgraph_runner.py`         (interrupt-exception detection)

Python strings are embedded as Lean `String`; Python `set`s as lists with
set-style insertion (`addElem`); Python `hash(s)` is embedded as the hashed
string itself (an injective stand-in: only equality of fingerprints matters
to the code paths under study); `hashlib.sha1(..)` digests are likewise
embedded by the signature string they digest.  Fallible I/O is embedded by
explicit failure-injection booleans reproducing the source `try/except`
structure.
-/

/-! ## Python-style string primitives -/

/-- Whitespace test matching Python `str.strip` / `str.lstrip` defaults. -/
def pyws (c : Char) : Bool :=
  c == ' ' || c == '\t' || c == '\n' || c == '\r' || c == '\x0b' || c == '\x0c'

/-- Python `str.strip()` on a character list. -/
def stripList (l : List Char) : List Char :=
  ((l.dropWhile pyws).reverse.dropWhile pyws).reverse

/-- Python `str.strip()`. -/
def pystripStr (s : String) : String := String.mk (stripList s.data)

/-- Python `str.lstrip()`. -/
def pylstripStr (s : String) : String := String.mk (s.data.dropWhile pyws)

/-- Python `str.lower()` (ASCII-adequate for the vocabularies involved). -/
def pylowerStr (s : String) : String := String.mk (s.data.map Char.toLower)

/-- Python `str.upper()`. -/
def pyupperStr (s : String) : String := String.mk (s.data.map Char.toUpper)

/-- Python slicing `s[:n]`. -/
def strTake (s : String) (n : Nat) : String := String.mk (s.data.take n)

/-- Does `l` start with `n`?  (Python `str.startswith`.) -/
def startsWithSeq : List Char → List Char → Bool
  | _, [] => true
  | [], _ :: _ => false
  | c :: t, d :: n => c == d && startsWithSeq t n

/-- Does `l` contain `n` as a contiguous subsequence?  (Python `in`.) -/
def containsSeq : List Char → List Char → Bool
  | [], n => n.isEmpty
  | c :: t, n => startsWithSeq (c :: t) n || containsSeq t n

/-- Python substring test `needle in hay`. -/
def containsStr (hay needle : String) : Bool := containsSeq hay.data needle.data

/-- Split `l` at the first occurrence of `n`: returns the part strictly before
the occurrence and the part strictly after it (Python `str.find` + slicing). -/
def breakAtSeq (n : List Char) : List Char → Option (List Char × List Char)
  | [] => if n.isEmpty then some ([], []) else none
  | c :: t =>
    if startsWithSeq (c :: t) n then some ([], (c :: t).drop n.length)
    else
      match breakAtSeq n t with
      | some (pre, post) => some (c :: pre, post)
      | none => none

/-- No occurrence of `n` begins at any position inside the region `a` when the
region is followed by `rest`. -/
def cleanPre (n : List Char) : List Char → List Char → Bool
  | [], _ => true
  | c :: a, rest => !startsWithSeq (c :: (a ++ rest)) n && cleanPre n a rest

/-- Python `set.add` on a list-backed set. -/
def addElem (l : List String) (x : String) : List String :=
  if x ∈ l then l else l ++ [x]

/-- Python `"sep".join`. -/
def joinSep (sep : String) : List String → String
  | [] => ""
  | [s] => s
  | s :: t => s ++ sep ++ joinSep sep t

/-- Python `str.split(sep)` for a single-character separator. -/
def splitOnChar (sep : Char) (l : List Char) : List (List Char) :=
  l.foldr
    (fun c acc =>
      match acc with
      | [] => [[c]]
      | g :: gs => if c == sep then [] :: (g :: gs) else (c :: g) :: gs)
    [[]]

/-- Python `str.split(sep, 1)`: split at the first occurrence only. -/
def splitOnce (sep : List Char) (l : List Char) : List (List Char) :=
  match breakAtSeq sep l with
  | some (pre, post) => [pre, post]
  | none => [l]

/-! ## Fixed vocabularies and markers from the source -/

/-- `TOOL_CALL_START_MARKER` in `formatters.py`. -/
def TOOL_CALL_START_MARKER : String := "<!--TOOL_CALL_START-->"

/-- `TOOL_CALL_END_MARKER` in `formatters.py`. -/
def TOOL_CALL_END_MARKER : String := "<!--TOOL_CALL_END-->"

/-- `TOOL_BLOCK_META_PREFIX` in `formatters.py`. -/
def TOOL_BLOCK_META_PREFIX : String := "<!--TOOL_BLOCK_META:"

/-- `TOOL_BLOCK_META_SUFFIX` in `formatters.py`. -/
def TOOL_BLOCK_META_SUFFIX : String := "-->"

/-- Approval vocabulary in `route_from_planning` (`supervisor.py`). -/
def approvalTerms : List String :=
  ["approved", "approve", "looks good", "send to supervisor",
   "proceed", "go ahead", "execute", "ok", "good", "yes"]

/-- Internal control nodes skipped by the demultiplexer (`formatters.py`). -/
def controlNodes : List String := ["human_chat", "__start__", "__end__"]

/-- Agents whose output is routed to the final channel (`formatters.py`). -/
def finalAgents : List String := ["planning_agent", "report_agent"]

/-- Planning-status markers that force re-labelling to `supervisor`. -/
def supervisorPatterns : List String :=
  ["📋 BREAKDOWN:", "⏳ CURRENT:", "✓ COMPLETED:", "📋 REMAINING:", "📋 OVERALL NOTE"]

/-- Interrupt-indicating vocabulary in `_is_interrupt_exception`
(`langgraph_runner.py`). -/
def interruptKeywords : List String :=
  ["nodeinterrupt", "interrupt", "interrupted", "human input required"]

/-! ## Data model -/

/-- Message content: either a plain string or a list of structured parts,
each part a `(type, text)` pair (the shapes inspected by `formatters.py`). -/
inductive MsgContent where
  | str (s : String)
  | parts (l : List (String × String))
deriving DecidableEq

/-- A tool call `{name, args}`; argument values embedded as strings. -/
structure ToolCall where
  name : String
  args : List (String × String)
deriving DecidableEq

/-- The duck-typed message surface read via `getattr` in the source.
`none` embeds an absent attribute (or Python `None`). -/
structure Message where
  id : Option String
  mtype : Option String
  role : Option String
  name : Option String
  tool_call_id : Option String
  content : MsgContent
  tool_calls : Option (List ToolCall)
deriving DecidableEq

/-- A `HumanMessage(content=s)` as constructed in `supervisor.py`. -/
def mkHumanMsg (s : String) : Message :=
  { id := none, mtype := some "human", role := none, name := none,
    tool_call_id := none, content := MsgContent.str s, tool_calls := none }

/-- The dedup tracker: `processed_message_ids` and
`processed_content_hashes` (hashes embedded by their preimage strings). -/
structure DedupState where
  ids : List String
  hashes : List String
deriving DecidableEq

/-- A parsed segment produced by `split_content_with_tool_blocks`. -/
inductive Segment where
  | text (content : String)
  | tool (kind : String) (source : Option String) (content : String)
deriving DecidableEq

/-- A record of the thread registry JSON file (`thread_manager.py`). -/
structure ThreadRec where
  thread_id : String
  created_at : String
  title : String
deriving DecidableEq

/-- The sqlite checkpoint store: rows of the `checkpoints` and `writes`
tables, each keyed by `thread_id` with an opaque payload. -/
structure CheckpointDB where
  checkpoints : List (String × String)
  writes : List (String × String)
deriving DecidableEq

/-! ## Deterministic renderings of Python `str` / `repr` / `json.dumps`
These embed the exact-output-irrelevant serialisations the source feeds into
fingerprints; only their determinism matters to the code paths studied. -/

/-- Python `str(args)` for a dict of string-valued arguments. -/
def pyStrDict (l : List (String × String)) : String :=
  "\x7b" ++
    joinSep ", " (l.map (fun kv => "\x27" ++ kv.1 ++ "\x27: \x27" ++ kv.2 ++ "\x27")) ++
  "\x7d"

/-- Python `repr` of one structured content part `{type, text}`. -/
def pyReprPart (p : String × String) : String :=
  "\x7b\x27type\x27: \x27" ++ p.1 ++ "\x27, \x27text\x27: \x27" ++ p.2 ++ "\x27\x7d"

/-- Python `repr(content)`. -/
def pyReprContent : MsgContent → String
  | MsgContent.str s => "\x27" ++ s ++ "\x27"
  | MsgContent.parts l => "[" ++ joinSep ", " (l.map pyReprPart) ++ "]"

/-- Python `str(content)`. -/
def pyStrContent : MsgContent → String
  | MsgContent.str s => s
  | MsgContent.parts l => "[" ++ joinSep ", " (l.map pyReprPart) ++ "]"

/-- Python `json.dumps(content, indent=2)` for structured content. -/
def pyJsonContent : MsgContent → String
  | MsgContent.str s => "\"" ++ s ++ "\""
  | MsgContent.parts l =>
      "[" ++
        joinSep ", "
          (l.map (fun p =>
            "\x7b\"type\": \"" ++ p.1 ++ "\", \"text\": \"" ++ p.2 ++ "\"\x7d")) ++
      "]"

/-- Python truthiness of a message `content` attribute. -/
def contentTruthy : MsgContent → Bool
  | MsgContent.str s => s != ""
  | MsgContent.parts l => !l.isEmpty

/-! ## formatters.py — tool blocks -/

/-- `_wrap_tool_block` (`formatters.py` lines 34-43). -/
def wrapToolBlock (content : String) (kind : String) (source : Option String) : String :=
  let body := pystripStr content
  if body == "" then ""
  else
    let metaParts : List String :=
      match source with
      | some s => if s != "" then ["kind=" ++ kind, "source=" ++ s] else ["kind=" ++ kind]
      | none => ["kind=" ++ kind]
    let metadata :=
      TOOL_BLOCK_META_PREFIX ++ joinSep "|" metaParts ++ TOOL_BLOCK_META_SUFFIX ++ "\n"
    TOOL_CALL_START_MARKER ++ "\n" ++ metadata ++ body ++ "\n" ++
      TOOL_CALL_END_MARKER ++ "\n"

/-- Does a stripped argument value start like code (`formatters.py` line 22)? -/
def startsCodey (v : String) : Bool :=
  startsWithSeq (pystripStr v).data "import".data ||
  startsWithSeq (pystripStr v).data "def".data ||
  startsWithSeq (pystripStr v).data "#".data

/-- The body built by `pretty_print_tool_call` before wrapping
(`formatters.py` lines 17-30; string-valued arguments). -/
def prettyCore (name : String) (args : List (String × String)) : String :=
  args.foldl
    (fun out kv =>
      if kv.1 == "code" || startsCodey kv.2 then
        out ++ "**📦 Args:** `" ++ kv.1 ++ "`:\n" ++ "```python\n" ++ kv.2 ++ "\n```\n"
      else
        out ++ "**📦 Args:** `" ++ kv.1 ++ "`: `" ++ kv.2 ++ "`\n\n")
    ("🔧 Tool: `" ++ name ++ "`\n\n")

/-- `pretty_print_tool_call` (`formatters.py` lines 17-31). -/
def pretty_print_tool_call (name : String) (args : List (String × String)) : String :=
  wrapToolBlock (prettyCore name args) "call" (some name)

/-- Fold over the `|`-separated metadata parts (`formatters.py` lines 55-63). -/
def applyMetaPart (acc : String × Option String) (part : List Char) :
    String × Option String :=
  if containsSeq part ['='] then
    match splitOnce ['='] part with
    | [k, v] =>
      let key := pylowerStr (pystripStr (String.mk k))
      let value := pystripStr (String.mk v)
      if key == "kind" && value != "" then (value, acc.2)
      else if key == "source" && value != "" then (acc.1, some value)
      else acc
    | _ => acc
  else acc

/-- `_parse_tool_block_metadata` (`formatters.py` lines 46-65): returns
`(kind, source, cleaned-content)`. -/
def parseToolBlockMetadata (block : List Char) : String × Option String × List Char :=
  if startsWithSeq block TOOL_BLOCK_META_PREFIX.data then
    match breakAtSeq TOOL_BLOCK_META_SUFFIX.data block with
    | some (pre, post) =>
      let metaSeg := pre.drop TOOL_BLOCK_META_PREFIX.length
      let (kind, source) :=
        (splitOnChar '|' metaSeg).foldl applyMetaPart ("call", none)
      (kind, source, post.dropWhile pyws)
    | none => ("call", none, block)
  else ("call", none, block)

/-- Trailing text after the last complete tool block
(`formatters.py` lines 93-95). -/
def trailingSegs (l : List Char) : List Segment :=
  let t := stripList l
  if t.isEmpty then [] else [Segment.text (String.mk t)]

/-- The text segment before a tool block (`formatters.py` lines 78-81). -/
def textSegsOf (pre : List Char) : List Segment :=
  let t := stripList pre
  if t.isEmpty then [] else [Segment.text (String.mk t)]

/-- The tool segment for one matched block (`formatters.py` lines 82-90). -/
def toolSegOf (body : List Char) : List Segment :=
  let b := stripList body
  if b.isEmpty then []
  else
    match parseToolBlockMetadata b with
    | (kind, source, cleaned) => [Segment.tool kind source (String.mk cleaned)]

/-- Fuel-indexed scan of `_TOOL_BLOCK_PATTERN.finditer`
(`formatters.py` lines 76-95).  Each step consumes one complete
`START ... END` match; the fuel `markdown.length` always suffices. -/
def splitLoop : Nat → List Char → List Segment
  | 0, l => trailingSegs l
  | Nat.succ fuel, l =>
    match breakAtSeq TOOL_CALL_START_MARKER.data l with
    | none => trailingSegs l
    | some (pre, rest1) =>
      match breakAtSeq TOOL_CALL_END_MARKER.data rest1 with
      | none => trailingSegs l
      | some (body, rest2) => textSegsOf pre ++ toolSegOf body ++ splitLoop fuel rest2

/-- `split_content_with_tool_blocks` (`formatters.py` lines 68-97). -/
def split_content_with_tool_blocks (markdown : String) : List Segment :=
  if markdown == "" then [] else splitLoop markdown.data.length markdown.data

/-! ## formatters.py — message identity, fingerprints, rendering -/

/-- `_derive_message_id` (`formatters.py` lines 112-130).  The sha1 digest of
the last-resort signature is embedded by the signature itself. -/
def deriveMessageId (m : Message) : Option String :=
  let fallback :=
    if m.mtype == some "tool" then
      match m.tool_call_id with
      | some tcid =>
        if tcid != "" then some ("tool_call:" ++ tcid)
        else
          some ("tool_signature:" ++ (m.name.getD "tool") ++ ":" ++
            strTake (pyReprContent m.content) 200)
      | none =>
        some ("tool_signature:" ++ (m.name.getD "tool") ++ ":" ++
          strTake (pyReprContent m.content) 200)
    else none
  match m.id with
  | some s => if s != "" then some s else fallback
  | none => fallback

/-- Is this message treated as a tool result (`formatters.py` line 183)? -/
def isToolResult (m : Message) : Bool :=
  m.role == some "function" || m.mtype == some "tool"

/-- Is this message a human/user echo (`formatters.py` line 177)? -/
def isHumanEcho (m : Message) : Bool :=
  m.mtype == some "human" || m.role == some "user"

/-- Concatenated text of structured parts (`formatters.py` lines 191-193). -/
def textOfParts (l : List (String × String)) : String :=
  l.foldl (fun acc p => if p.1 == "text" then acc ++ p.2 else acc) ""

/-- The canonical tool-call signature accumulated into the content hash
(`formatters.py` lines 198-205 and 219-227). -/
def toolOnlySig (m : Message) : String :=
  match m.tool_calls with
  | some calls =>
    calls.foldl
      (fun acc c => acc ++ "TOOL:" ++ c.name ++ ":" ++ strTake (pyStrDict c.args) 200)
      ""
  | none => ""

/-- The `content_to_check` string built for fingerprinting
(`formatters.py` lines 185-210). -/
def fingerprintContent (m : Message) : String :=
  let c1 :=
    if contentTruthy m.content then
      match m.content with
      | MsgContent.parts l => textOfParts l
      | MsgContent.str s => s
    else ""
  let c3 :=
    if isToolResult m then
      (if m.role == some "function" then "FUNC_RESULT" else "TOOL_RESULT") ++ ":" ++
        m.name.getD "" ++ ":" ++ strTake (pyStrContent m.content) 200
    else ""
  c1 ++ toolOnlySig m ++ c3

/-- The rendered output of one message (`formatters.py` lines 240-270). -/
def renderMessage (m : Message) : String :=
  let r1 :=
    if contentTruthy m.content && !isToolResult m then
      match m.content with
      | MsgContent.parts l =>
        l.foldl (fun acc p => if p.1 == "text" then acc ++ p.2 ++ "\n\n" else acc) ""
      | MsgContent.str s => s ++ "\n\n"
    else ""
  let r2 :=
    match m.tool_calls with
    | some calls => calls.foldl (fun acc c => acc ++ pretty_print_tool_call c.name c.args) ""
    | none => ""
  let r3 :=
    if isToolResult m then
      wrapToolBlock
        (match m.content with
         | MsgContent.parts l => "```json\n" ++ pyJsonContent (MsgContent.parts l) ++ "\n```\n\n"
         | MsgContent.str s => s ++ "\n\n")
        "result" m.name
    else ""
  r1 ++ r2 ++ r3

/-- The per-message body of the loop in `separate_agent_outputs`
(`formatters.py` lines 170-272): returns the text appended to
`agent_output` and the updated dedup tracker. -/
def processMessage (m : Message) (st : DedupState) : String × DedupState :=
  match deriveMessageId m with
  | none => ("", st)
  | some mid =>
    if mid ∈ st.ids then ("", st)
    else if isHumanEcho m then ("", ⟨addElem st.ids mid, st.hashes⟩)
    else
      let stripped := pystripStr (fingerprintContent m)
      if stripped != "" then
        let primary := strTake stripped 300
        if primary ∈ st.hashes then ("", ⟨addElem st.ids mid, st.hashes⟩)
        else
          let hashes1 := addElem st.hashes primary
          let ts := toolOnlySig m
          let hashes2 := if ts != "" then addElem hashes1 ts else hashes1
          (renderMessage m, ⟨addElem st.ids mid, hashes2⟩)
      else (renderMessage m, ⟨addElem st.ids mid, st.hashes⟩)

/-- The message loop of `separate_agent_outputs` over one chunk entry. -/
def processMessages : List Message → DedupState → String × DedupState
  | [], st => ("", st)
  | m :: rest, st =>
    let r1 := processMessage m st
    let r2 := processMessages rest r1.2
    (r1.1 ++ r2.1, r2.2)

/-- Supervisor-narration detection (`formatters.py` lines 277-278). -/
def hasSupervisorContent (out : String) : Bool :=
  supervisorPatterns.any (fun p => containsStr out p)

/-- Agent-name relabelling (`formatters.py` lines 281-284). -/
def effectiveAgentName (out : String) (name : String) : String :=
  if hasSupervisorContent out && !(finalAgents.contains (pylowerStr name)) then
    "supervisor"
  else name

/-- The 40-dash separator line `"-" * 40`. -/
def dashes40 : String := "----------------------------------------"

/-- The formatted agent block (`formatters.py` lines 286-288). -/
def formatBlock (name' out : String) : String :=
  "\n\n**" ++ pyupperStr name' ++ "**\n" ++ dashes40 ++ "\n\n" ++ out

/-- Processing of one `(agent_name, data)` entry of a chunk
(`formatters.py` lines 157-297): returns `(progress, final, tracker)`.
`data = none` embeds a non-dict value (skipped by line 158). -/
def processEntry (name : String) (data : Option (List Message)) (st : DedupState) :
    String × String × DedupState :=
  match data with
  | none => ("", "", st)
  | some msgs =>
    if controlNodes.contains (pylowerStr name) then ("", "", st)
    else
      let r := processMessages msgs st
      if r.1 != "" then
        let name' := effectiveAgentName r.1 name
        let block := formatBlock name' r.1
        if finalAgents.contains (pylowerStr name') then ("", block, r.2)
        else (block, "", r.2)
      else ("", "", r.2)

/-- `separate_agent_outputs` (`formatters.py` lines 133-299) over a chunk in
dict form (an ordered list of `(agent_name, data)` entries).  Returns the
accumulated `(progress_output, final_output)` and the updated tracker. -/
def separate_agent_outputs :
    List (String × Option (List Message)) → DedupState → String × String × DedupState
  | [], st => ("", "", st)
  | (name, data) :: rest, st =>
    let r1 := processEntry name data st
    let r2 := separate_agent_outputs rest r1.2.2
    (r1.1 ++ r2.1, r1.2.1 ++ r2.2.1, r2.2.2)

/-! ## supervisor.py — routing and human approval -/

/-- The human-message extraction of one message inside the loop of
`route_from_planning` (`supervisor.py` lines 101-113): the content when the
message is recognised as human, in any of the three inspected shapes. -/
def humanContentOf (m : Message) : Option MsgContent :=
  if m.mtype == some "human" then some m.content
  else if m.role == some "user" then some m.content
  else none

/-- All human-message contents collected by `route_from_planning`
(`supervisor.py` lines 100-113); contents failing Python truthiness are not
collected (`if human_content:`). -/
def humanMessages (msgs : List Message) : List MsgContent :=
  msgs.foldl
    (fun acc m =>
      match humanContentOf m with
      | some c => if contentTruthy c then acc ++ [c] else acc
      | none => acc)
    []

/-- View a collected human content as the string the source then lowercases.
In the source a non-string content here would raise `AttributeError`;
every human message the system constructs carries string content. -/
def strOfHumanContent : MsgContent → String
  | MsgContent.str s => s
  | MsgContent.parts l => pyStrContent (MsgContent.parts l)

/-- `route_from_planning` (`supervisor.py` lines 95-137). -/
def route_from_planning (msgs : List Message) : String :=
  let hm := humanMessages msgs
  if hm.length ≤ 1 then "human_chat"
  else
    match hm.getLast? with
    | some c =>
      let contentLower := pystripStr (pylowerStr (strOfHumanContent c))
      if approvalTerms.any (fun t => containsStr contentLower t) then "supervisor"
      else "human_chat"
    | none => "human_chat"

/-- The resume continuation of `human_chat_node` (`supervisor.py` lines
166-173): given the state messages and the human resume input, returns the
`plan_approved` flag and the resulting message list.  An empty string embeds
a falsy resume input. -/
def human_chat_resume (messages : List Message) (humanInput : String) :
    Bool × List Message :=
  if humanInput != "" && pystripStr (pylowerStr humanInput) == "approved" then
    (true, messages)
  else if humanInput != "" then (false, messages ++ [mkHumanMsg humanInput])
  else (false, messages)

/-! ## langgraph_runner.py — interrupt-exception detection -/

/-- `_is_interrupt_exception` (`langgraph_runner.py` lines 29-34). -/
def isInterruptException (excMsg : String) : Bool :=
  interruptKeywords.any (fun k => containsStr (pylowerStr excMsg) k)

/-- Outcome of the stream-level exception handler. -/
inductive ExcOutcome where
  | completeInterrupted
  | propagate
deriving DecidableEq

/-- The `except` clause of `stream_langgraph_events`
(`langgraph_runner.py` lines 80-84): an exception raised during the stream
is converted to a `complete(interrupted=true)` event exactly when interrupt
checking is on and its message matches the interrupt vocabulary; otherwise
it is re-raised to the caller.  Both call sites of a streamed turn
(`gradio_app.py` line 379, `streamlit_app.py` line 515) pass
`check_for_interrupts=True`. -/
def handleStreamException (checkForInterrupts : Bool) (excMsg : String) : ExcOutcome :=
  if checkForInterrupts && isInterruptException excMsg then
    ExcOutcome.completeInterrupted
  else ExcOutcome.propagate

/-! ## thread_manager.py and components.py — registry and checkpoint purge -/

/-- `delete_thread_from_database` (`thread_manager.py` lines 49-75).
`failBeforeCommit` injects an exception raised by the sqlite layer before
`connection.commit()` (the transaction is rolled back); `failVacuum` injects
an exception raised by the `VACUUM` statement itself (the row deletions are
already committed).  Returns `(db, vacuumAttempted, returnValue)`: the
source returns `True` only when no exception occurred, and runs `VACUUM`
whenever the commit succeeded. -/
def delete_thread_from_database (db : CheckpointDB) (tid : String)
    (failBeforeCommit failVacuum : Bool) : CheckpointDB × Bool × Bool :=
  if failBeforeCommit then (db, false, false)
  else
    let db' : CheckpointDB :=
      { checkpoints := db.checkpoints.filter (fun r => r.1 ≠ tid),
        writes := db.writes.filter (fun r => r.1 ≠ tid) }
    (db', true, !failVacuum)

/-- `remove_thread_id` (`thread_manager.py` lines 78-86): removes the record
from the registry list, then purges the checkpoint store.  Returns the new
registry, the new store, and the purge return value; the source never
propagates a purge failure (the `except` clause in
`delete_thread_from_database` logs and returns `False`). -/
def remove_thread_id (threads : List ThreadRec) (db : CheckpointDB) (tid : String)
    (failBeforeCommit failVacuum : Bool) :
    List ThreadRec × CheckpointDB × Bool :=
  let threads' := threads.filter (fun t => t.thread_id ≠ tid)
  let r := delete_thread_from_database db tid failBeforeCommit failVacuum
  (threads', r.1, r.2.2)

/-- The delete action of `_display_conversation_list`
(`components.py` lines 178-194): the caller layer performs the delete only
when more than one thread exists, otherwise it refuses and changes nothing.
The final boolean reports whether the delete was carried out. -/
def deleteConversationGuarded (threads : List ThreadRec) (db : CheckpointDB)
    (tid : String) (failBeforeCommit failVacuum : Bool) :
    List ThreadRec × CheckpointDB × Bool :=
  if 1 < threads.length then
    let r := remove_thread_id threads db tid failBeforeCommit failVacuum
    (r.1, r.2.1, true)
  else (threads, db, false)

/-- `get_latest` of the checkpoint store: the most recent checkpoint row for
a thread id, or `none`. -/
def checkpointGetLatest (db : CheckpointDB) (tid : String) : Option String :=
  ((db.checkpoints.filter (fun r => r.1 == tid)).getLast?).map (fun r => r.2)

/-! ## Substring infrastructure lemmas -/

theorem startsWithSeq_iff (n : List Char) : ∀ l : List Char,
    startsWithSeq l n = true ↔ ∃ r, l = n ++ r := by
  induction n with
  | nil =>
    intro l
    simp [startsWithSeq]
  | cons d n ih =>
    intro l
    cases l with
    | nil => simp [startsWithSeq]
    | cons c t =>
      simp only [startsWithSeq, Bool.and_eq_true, beq_iff_eq, ih, List.cons_append,
        List.cons.injEq]
      constructor
      · rintro ⟨hcd, r, hr⟩
        exact ⟨r, hcd, hr⟩
      · rintro ⟨r, hcd, hr⟩
        exact ⟨hcd, r, hr⟩

theorem containsSeq_iff (n : List Char) : ∀ l : List Char,
    containsSeq l n = true ↔ ∃ p s, l = p ++ (n ++ s) := by
  intro l
  induction l with
  | nil =>
    simp only [containsSeq, List.isEmpty_iff]
    constructor
    · rintro rfl
      exact ⟨[], [], rfl⟩
    · rintro ⟨p, s, h⟩
      rcases List.append_eq_nil.mp h.symm with ⟨rfl, h2⟩
      rcases List.append_eq_nil.mp h2 with ⟨rfl, rfl⟩
      rfl
  | cons c t ih =>
    simp only [containsSeq, Bool.or_eq_true, startsWithSeq_iff, ih]
    constructor
    · rintro (⟨r, hr⟩ | ⟨p, s, hps⟩)
      · exact ⟨[], r, by simp [hr]⟩
      · exact ⟨c :: p, s, by simp [hps]⟩
    · rintro ⟨p, s, hps⟩
      cases p with
      | nil => exact Or.inl ⟨s, by simpa using hps⟩
      | cons q qs =>
        right
        rcases List.cons_eq_cons.mp hps with ⟨rfl, ht⟩
        exact ⟨qs, s, ht⟩

theorem containsSeq_of_inner (l a n b : List Char)
    (h : containsSeq l (a ++ (n ++ b)) = true) : containsSeq l n = true := by
  rw [containsSeq_iff] at h ⊢
  rcases h with ⟨p, s, hps⟩
  exact ⟨p ++ a, b ++ s, by simp [hps]⟩

/-! ## Claim C1 — routing from the planning agent -/

/-- Claim C1, as stated, is false on the code: in the state
`[Human "", Human "approved"]` at least two human messages exist and the
most recent one contains the approval term `"approved"`, yet
`route_from_planning` returns `"human_chat"`, because the source collects
only human messages whose content is truthy (`if human_content:`), so the
empty first message is not counted and only one collected message remains. -/
theorem claim1_counterexample :
    route_from_planning [mkHumanMsg "", mkHumanMsg "approved"] = "human_chat" ∧
    ([mkHumanMsg "", mkHumanMsg "approved"].filter
        (fun m => m.mtype == some "human")).length = 2 ∧
    ([mkHumanMsg "", mkHumanMsg "approved"].filter
        (fun m => m.mtype == some "human")).getLast? = some (mkHumanMsg "approved") ∧
    containsStr (pystripStr (pylowerStr "approved")) "approved" = true ∧
    route_from_planning [mkHumanMsg "", mkHumanMsg "approved"] ≠ "supervisor" := by
  refine ⟨by decide, by decide, by decide, by decide, by decide⟩

/-- Claim C1 (amended: "human message" counts only human messages with
non-empty, truthy content, as collected by the source): whenever at most one
collected human message exists, `route_from_planning` returns `human_chat`;
when at least two exist it returns `supervisor` iff the most recent one
contains (case-insensitive substring, after lowercasing and stripping) one
of the ten approval terms, and `human_chat` otherwise; in particular the
first human message alone never triggers approval. -/
theorem claim1_route_from_planning (msgs : List Message) :
    ((humanMessages msgs).length ≤ 1 → route_from_planning msgs = "human_chat") ∧
    (∀ c, 2 ≤ (humanMessages msgs).length → (humanMessages msgs).getLast? = some c →
      ((route_from_planning msgs = "supervisor" ↔
          approvalTerms.any (fun t =>
            containsStr (pystripStr (pylowerStr (strOfHumanContent c))) t) = true) ∧
        (route_from_planning msgs = "supervisor" ∨
          route_from_planning msgs = "human_chat"))) := by
  constructor
  · intro h
    simp [route_from_planning, h]
  · intro c h2 hlast
    have hn : ¬ (humanMessages msgs).length ≤ 1 := by omega
    by_cases hA : approvalTerms.any (fun t =>
        containsStr (pystripStr (pylowerStr (strOfHumanContent c))) t) = true
    · constructor
      · simp [route_from_planning, hn, hlast, hA]
      · left
        simp [route_from_planning, hn, hlast, hA]
    · constructor
      · rw [route_from_planning]
        simp only [hn, if_false, hlast]
        rw [if_neg hA]
        constructor
        · intro h
          exact absurd h (by decide)
        · intro h
          exact absurd h hA
      · right
        rw [route_from_planning]
        simp only [hn, if_false, hlast]
        rw [if_neg hA]

/-- Witness for C1 at the spec example
`["build a model", "looks good, proceed"]`: two collected human messages,
the feedback contains `"looks good"`, and the route is `supervisor`. -/
theorem claim1_witness :
    route_from_planning
      [mkHumanMsg "build a model", mkHumanMsg "looks good, proceed"] = "supervisor" := by
  have h := (claim1_route_from_planning
    [mkHumanMsg "build a model", mkHumanMsg "looks good, proceed"]).2
    (MsgContent.str "looks good, proceed") (by decide) (by decide)
  exact h.1.mpr (by decide)

/-! ## Claim C2 — resume behaviour of the human-chat node -/

/-- Claim C2, as stated, is false on the code: the resume input
`"Approved"` is not the exact case-sensitive token `"approved"`, yet the
source lowercases and strips the input before comparing
(`human_input.lower().strip() == "approved"`), so it sets
`plan_approved = true` and appends nothing. -/
theorem claim2_counterexample :
    human_chat_resume [] "Approved" = (true, []) ∧ "Approved" ≠ "approved" := by
  exact ⟨by decide, by decide⟩

/-- Claim C2 (amended: the comparison is on the lowercased,
whitespace-stripped input, not the exact case-sensitive token): on resume
with a non-empty input, `plan_approved` is set to true exactly when the
lowercased and stripped input equals `"approved"`; every other non-empty
input is appended as a new human message and `plan_approved` is false. -/
theorem claim2_human_chat_resume (msgs : List Message) (input : String)
    (hne : input ≠ "") :
    ((human_chat_resume msgs input).1 = true ↔
      pystripStr (pylowerStr input) = "approved") ∧
    (pystripStr (pylowerStr input) ≠ "approved" →
      human_chat_resume msgs input = (false, msgs ++ [mkHumanMsg input])) := by
  have hb : (input != "") = true := by
    simpa [bne_iff_ne] using hne
  by_cases ha : pystripStr (pylowerStr input) = "approved"
  · constructor
    · simp [human_chat_resume, hb, ha]
    · intro h
      exact absurd ha h
  · have ha' : (pystripStr (pylowerStr input) == "approved") = false := by
      simpa [beq_iff_eq] using ha
    constructor
    · simp [human_chat_resume, hb, ha', ha]
    · intro _
      simp [human_chat_resume, hb, ha']

/-- Witness for C2 at the refinement input `"also check toxicity"`. -/
theorem claim2_witness :
    ((human_chat_resume [] "also check toxicity").1 = true ↔
      pystripStr (pylowerStr "also check toxicity") = "approved") ∧
    (pystripStr (pylowerStr "also check toxicity") ≠ "approved" →
      human_chat_resume [] "also check toxicity" =
        (false, [mkHumanMsg "also check toxicity"])) := by
  have h := claim2_human_chat_resume [] "also check toxicity" (by decide)
  simpa using h

/-! ## Claim C9 — interrupt-vocabulary exception handling -/

/-- Claim C9: during a streamed turn (both call sites stream with
`check_for_interrupts=True`), an exception is converted to a completion
event with `interrupted = true` exactly when its message contains, case
insensitively, `"interrupt"`, `"interrupted"`, or
`"human input required"`; every other exception is propagated.  The extra
source keyword `"nodeinterrupt"` adds nothing, since it contains
`"interrupt"`. -/
theorem claim9_interrupt_exceptions (excMsg : String) :
    handleStreamException true excMsg = ExcOutcome.completeInterrupted ↔
      (containsStr (pylowerStr excMsg) "interrupt" = true ∨
       containsStr (pylowerStr excMsg) "interrupted" = true ∨
       containsStr (pylowerStr excMsg) "human input required" = true) := by
  have hnode : containsStr (pylowerStr excMsg) "nodeinterrupt" = true →
      containsStr (pylowerStr excMsg) "interrupt" = true := by
    intro h
    have hsplit : ("nodeinterrupt" : String).data =
        ("node" : String).data ++ (("interrupt" : String).data ++ []) := by decide
    unfold containsStr at h ⊢
    rw [hsplit] at h
    exact containsSeq_of_inner _ _ _ _ h
  by_cases hc : isInterruptException excMsg = true
  · have hout : handleStreamException true excMsg = ExcOutcome.completeInterrupted := by
      simp [handleStreamException, hc]
    simp only [hout, true_iff]
    have := hc
    simp only [isInterruptException, interruptKeywords, List.any_cons, List.any_nil,
      Bool.or_eq_true, Bool.or_false] at this
    rcases this with h | h | h | h
    · exact Or.inl (hnode h)
    · exact Or.inl h
    · exact Or.inr (Or.inl h)
    · exact Or.inr (Or.inr h)
  · have hout : handleStreamException true excMsg = ExcOutcome.propagate := by
      simp [handleStreamException, hc]
    rw [hout]
    constructor
    · intro h
      exact absurd h (by decide)
    · intro h
      exfalso
      apply hc
      simp only [isInterruptException, interruptKeywords, List.any_cons, List.any_nil,
        Bool.or_eq_true, Bool.or_false]
      rcases h with h | h | h
      · exact Or.inr (Or.inl h)
      · exact Or.inr (Or.inr (Or.inl h))
      · exact Or.inr (Or.inr (Or.inr h))

/-! ## Claim C7 — thread removal and checkpoint purge -/

/-- Claim C7: `remove_thread_id t` removes `t` from the registry list (the
saved list no longer contains `t`), instructs the checkpoint store to
delete every row for `t`, and — because `delete_thread_from_database`
catches every exception and returns `False` — a purge or reclaim failure
never propagates: the function (total here, mirroring the source's
`try/except`) completes with the registry entry removed for every failure
injection, the store being purged whenever the delete transaction committed
and left untouched when it failed before commit. -/
theorem claim7_remove_thread_id (threads : List ThreadRec) (db : CheckpointDB)
    (tid : String) (f1 f2 : Bool) :
    (remove_thread_id threads db tid f1 f2).1 =
      threads.filter (fun t => t.thread_id ≠ tid) ∧
    (∀ rec ∈ (remove_thread_id threads db tid f1 f2).1, rec.thread_id ≠ tid) ∧
    (f1 = false →
      checkpointGetLatest (remove_thread_id threads db tid f1 f2).2.1 tid = none ∧
      (remove_thread_id threads db tid f1 f2).2.1.writes.filter
        (fun r => r.1 == tid) = []) ∧
    (f1 = true → (remove_thread_id threads db tid f1 f2).2.1 = db) := by
  refine ⟨rfl, ?_, ?_, ?_⟩
  · intro rec hrec
    simp only [remove_thread_id, List.mem_filter, decide_eq_true_eq] at hrec
    exact hrec.2
  · intro hf1
    subst hf1
    have hck : (remove_thread_id threads db tid false f2).2.1.checkpoints =
        db.checkpoints.filter (fun r => r.1 ≠ tid) := rfl
    have hwr : (remove_thread_id threads db tid false f2).2.1.writes =
        db.writes.filter (fun r => r.1 ≠ tid) := rfl
    constructor
    · rw [checkpointGetLatest, hck]
      have hnil : (db.checkpoints.filter (fun r => r.1 ≠ tid)).filter
          (fun r => r.1 == tid) = [] := by
        rw [List.filter_eq_nil_iff]
        intro a ha
        have h1 := (List.mem_filter.mp ha).2
        simp only [decide_eq_true_eq] at h1
        simp [h1]
      rw [hnil]
      rfl
    · rw [hwr, List.filter_eq_nil_iff]
      intro a ha
      have h1 := (List.mem_filter.mp ha).2
      simp only [decide_eq_true_eq] at h1
      simp [h1]
  · intro hf1
    subst hf1
    rfl

/-- Witness for C7 in the non-failing case: a two-row store and two-thread
registry, deleting thread `"t1"`. -/
theorem claim7_witness :
    (remove_thread_id
        [⟨"t1", "d1", "a"⟩, ⟨"t2", "d2", "b"⟩]
        ⟨[("t1", "c1"), ("t2", "c2")], [("t1", "w1")]⟩ "t1" false false).1 =
      [ThreadRec.mk "t2" "d2" "b"] ∧
    checkpointGetLatest
      (remove_thread_id
        [⟨"t1", "d1", "a"⟩, ⟨"t2", "d2", "b"⟩]
        ⟨[("t1", "c1"), ("t2", "c2")], [("t1", "w1")]⟩ "t1" false false).2.1 "t1" = none := by
  have h := claim7_remove_thread_id
    [⟨"t1", "d1", "a"⟩, ⟨"t2", "d2", "b"⟩]
    ⟨[("t1", "c1"), ("t2", "c2")], [("t1", "w1")]⟩ "t1" false false
  refine ⟨?_, (h.2.2.1 rfl).1⟩
  rw [h.1]
  decide

/-! ## Claim C6 — last-thread delete guard -/

/-- Claim C6: the guarded delete of the conversation list carries out the
removal (registry entry and checkpoint rows) only when more than one thread
is in the registry; with a single remaining thread the request is rejected
and nothing changes; consequently a registry whose thread ids are distinct
(the invariant maintained by `add_thread_id`) never becomes empty. -/
theorem claim6_delete_guard (threads : List ThreadRec) (db : CheckpointDB)
    (tid : String) (f1 f2 : Bool)
    (hnd : (threads.map (fun t => t.thread_id)).Nodup) :
    (1 < threads.length →
      (deleteConversationGuarded threads db tid f1 f2).2.2 = true ∧
      (deleteConversationGuarded threads db tid f1 f2).1 =
        threads.filter (fun t => t.thread_id ≠ tid) ∧
      (∀ rec ∈ (deleteConversationGuarded threads db tid f1 f2).1,
        rec.thread_id ≠ tid) ∧
      (f1 = false →
        checkpointGetLatest (deleteConversationGuarded threads db tid f1 f2).2.1
          tid = none)) ∧
    (threads.length ≤ 1 →
      deleteConversationGuarded threads db tid f1 f2 = (threads, db, false)) ∧
    (threads ≠ [] → (deleteConversationGuarded threads db tid f1 f2).1 ≠ []) := by
  have hr := claim7_remove_thread_id threads db tid f1 f2
  by_cases hlen : 1 < threads.length
  · have hg1 : (deleteConversationGuarded threads db tid f1 f2).1 =
        (remove_thread_id threads db tid f1 f2).1 := by
      simp [deleteConversationGuarded, hlen]
    have hg2 : (deleteConversationGuarded threads db tid f1 f2).2.1 =
        (remove_thread_id threads db tid f1 f2).2.1 := by
      simp [deleteConversationGuarded, hlen]
    refine ⟨fun _ => ⟨by simp [deleteConversationGuarded, hlen], ?_, ?_, ?_⟩,
      fun h => absurd hlen (by omega), ?_⟩
    · rw [hg1, hr.1]
    · intro rec hrec
      rw [hg1] at hrec
      exact hr.2.1 rec hrec
    · intro hf1
      rw [hg2]
      exact (hr.2.2.1 hf1).1
    · intro _
      rw [hg1, hr.1]
      intro hempty
      match threads, hlen, hnd, hempty with
      | a :: b :: rest, _, hnd, hempty =>
        have hmem : ∀ r ∈ a :: b :: rest, ¬ r.thread_id ≠ tid := by
          intro r hrmem
          have := List.filter_eq_nil_iff.mp hempty r hrmem
          simpa using this
        have ha : a.thread_id = tid := not_not.mp (by
          simpa using hmem a (List.mem_cons_self _ _))
        have hb : b.thread_id = tid := not_not.mp (by
          simpa using hmem b (List.mem_cons_of_mem _ (List.mem_cons_self _ _)))
        have hne : a.thread_id ≠ b.thread_id := by
          have h1 : (List.map (fun t => t.thread_id) (a :: b :: rest)).Nodup := hnd
          simp only [List.map_cons, List.nodup_cons, List.mem_cons] at h1
          exact fun hEq => h1.1 (Or.inl hEq)
        exact hne (ha.trans hb.symm)
  · refine ⟨fun h => absurd h hlen, fun _ => ?_, fun hne => ?_⟩
    · simp [deleteConversationGuarded, hlen]
    · have : deleteConversationGuarded threads db tid f1 f2 = (threads, db, false) := by
        simp [deleteConversationGuarded, hlen]
      rw [this]
      simpa using hne

/-- Witness for C6: deleting `"t1"` from a two-thread registry succeeds and
leaves one thread; the guard invariant holds at this input. -/
theorem claim6_witness :
    (deleteConversationGuarded
        [⟨"t1", "d1", "a"⟩, ⟨"t2", "d2", "b"⟩]
        ⟨[("t1", "c1")], []⟩ "t1" false false).2.2 = true ∧
    (deleteConversationGuarded
        [⟨"t1", "d1", "a"⟩, ⟨"t2", "d2", "b"⟩]
        ⟨[("t1", "c1")], []⟩ "t1" false false).1 ≠ [] := by
  have h := claim6_delete_guard
    [⟨"t1", "d1", "a"⟩, ⟨"t2", "d2", "b"⟩]
    ⟨[("t1", "c1")], []⟩ "t1" false false (by decide)
  exact ⟨(h.1 (by decide)).1, h.2.2 (by decide)⟩

/-! ## Claim C8 — compaction on delete -/

/-- Claim C8, as stated, is false on the code: it asserts the existence of
a successful delete after which compaction is not executed, but the source
runs `VACUUM` unconditionally after every committed delete (line 66 of
`thread_manager.py`), and every call that returns `True` has reached it. -/
theorem claim8_counterexample :
    ¬ ∃ (db : CheckpointDB) (tid : String) (f1 f2 : Bool),
        (delete_thread_from_database db tid f1 f2).2.2 = true ∧
        (delete_thread_from_database db tid f1 f2).2.1 = false := by
  rintro ⟨db, tid, f1, f2, hsucc, hvac⟩
  cases f1 with
  | true =>
    rw [show delete_thread_from_database db tid true f2 =
      (db, false, false) from rfl] at hsucc
    simp at hsucc
  | false =>
    have : (delete_thread_from_database db tid false f2).2.1 = true := rfl
    rw [this] at hvac
    exact absurd hvac (by decide)

/-- Claim C8 (amended): the delete operation removes every checkpoint and
write row for the thread id, and the storage-reclaim pass (`VACUUM`) is
executed on every delete whose transaction commits — in particular after
every successful delete — rather than opportunistically skipped. -/
theorem claim8_delete_vacuums (db : CheckpointDB) (tid : String) (f1 f2 : Bool) :
    ((delete_thread_from_database db tid f1 f2).2.2 = true →
      (delete_thread_from_database db tid f1 f2).2.1 = true) ∧
    (f1 = false →
      (delete_thread_from_database db tid f1 f2).1.checkpoints.filter
        (fun r => r.1 == tid) = [] ∧
      (delete_thread_from_database db tid f1 f2).1.writes.filter
        (fun r => r.1 == tid) = [] ∧
      (delete_thread_from_database db tid f1 f2).2.1 = true) := by
  constructor
  · intro hsucc
    cases f1 with
    | true =>
      rw [show delete_thread_from_database db tid true f2 =
        (db, false, false) from rfl] at hsucc
      simp at hsucc
    | false => rfl
  · intro hf1
    subst hf1
    refine ⟨?_, ?_, rfl⟩
    · rw [show (delete_thread_from_database db tid false f2).1.checkpoints =
        db.checkpoints.filter (fun r => r.1 ≠ tid) from rfl, List.filter_eq_nil_iff]
      intro a ha
      have h1 := (List.mem_filter.mp ha).2
      simp only [decide_eq_true_eq] at h1
      simp [h1]
    · rw [show (delete_thread_from_database db tid false f2).1.writes =
        db.writes.filter (fun r => r.1 ≠ tid) from rfl, List.filter_eq_nil_iff]
      intro a ha
      have h1 := (List.mem_filter.mp ha).2
      simp only [decide_eq_true_eq] at h1
      simp [h1]

/-- Witness for C8 (amended) at a concrete store: the delete succeeds, rows
are gone, and `VACUUM` ran. -/
theorem claim8_witness :
    (delete_thread_from_database ⟨[("t1", "c1")], [("t1", "w1")]⟩ "t1"
      false false).2.2 = true ∧
    (delete_thread_from_database ⟨[("t1", "c1")], [("t1", "w1")]⟩ "t1"
      false false).1.checkpoints.filter (fun r => r.1 == "t1") = [] ∧
    (delete_thread_from_database ⟨[("t1", "c1")], [("t1", "w1")]⟩ "t1"
      false false).2.1 = true := by
  have h := claim8_delete_vacuums ⟨[("t1", "c1")], [("t1", "w1")]⟩ "t1" false false
  have h2 := h.2 rfl
  exact ⟨by decide, h2.1, h2.2.2⟩

/-! ## Dedup-tracker lemmas for the demultiplexer -/

theorem mem_addElem_iff (l : List String) (x y : String) :
    y ∈ addElem l x ↔ y ∈ l ∨ y = x := by
  unfold addElem
  split_ifs with h
  · constructor
    · exact fun hy => Or.inl hy
    · rintro (hy | rfl)
      · exact hy
      · exact h
  · simp [List.mem_append]

theorem mem_addElem_self (l : List String) (x : String) : x ∈ addElem l x :=
  (mem_addElem_iff l x x).mpr (Or.inr rfl)

theorem mem_addElem_of_mem (l : List String) (x y : String) (h : y ∈ l) :
    y ∈ addElem l x :=
  (mem_addElem_iff l x y).mpr (Or.inl h)

theorem addElem_of_mem (l : List String) (x : String) (h : x ∈ l) :
    addElem l x = l := by
  simp [addElem, h]

/-- A message with no derivable identifier contributes nothing. -/
theorem processMessage_none (m : Message) (st : DedupState)
    (hd : deriveMessageId m = none) : processMessage m st = ("", st) := by
  simp [processMessage, hd]

/-- A message whose identifier is already tracked is skipped wholesale. -/
theorem processMessage_seen (m : Message) (st : DedupState) (mid : String)
    (hd : deriveMessageId m = some mid) (hmem : mid ∈ st.ids) :
    processMessage m st = ("", st) := by
  simp [processMessage, hd, hmem]

/-- Whenever a message has an identifier, processing leaves the id set equal
to the set with that identifier added (a no-op when already present). -/
theorem processMessage_ids_eq (m : Message) (st : DedupState) (mid : String)
    (hd : deriveMessageId m = some mid) :
    (processMessage m st).2.ids = addElem st.ids mid := by
  by_cases hmem : mid ∈ st.ids
  · rw [processMessage_seen m st mid hd hmem, addElem_of_mem _ _ hmem]
  · simp only [processMessage, hd]
    rw [if_neg hmem]
    by_cases hhe : isHumanEcho m = true
    · simp [hhe]
    · simp only [Bool.not_eq_true] at hhe
      simp only [hhe, Bool.false_eq_true, if_false]
      by_cases hst : (pystripStr (fingerprintContent m) != "") = true
      · simp only [hst, if_true]
        split_ifs <;> rfl
      · simp only [Bool.not_eq_true] at hst
        simp only [hst, Bool.false_eq_true, if_false]

/-- The identifier set only grows. -/
theorem processMessage_ids_mono (m : Message) (st : DedupState) (y : String)
    (h : y ∈ st.ids) : y ∈ (processMessage m st).2.ids := by
  rcases hd : deriveMessageId m with _ | mid
  · rw [processMessage_none m st hd]
    exact h
  · rw [processMessage_ids_eq m st mid hd]
    exact mem_addElem_of_mem _ _ _ h

/-- A processed message's identifier is tracked afterwards. -/
theorem processMessage_adds_id (m : Message) (st : DedupState) (mid : String)
    (hd : deriveMessageId m = some mid) : mid ∈ (processMessage m st).2.ids := by
  rw [processMessage_ids_eq m st mid hd]
  exact mem_addElem_self _ _

theorem processMessages_cons (m : Message) (rest : List Message) (st : DedupState) :
    processMessages (m :: rest) st =
      ((processMessage m st).1 ++ (processMessages rest (processMessage m st).2).1,
        (processMessages rest (processMessage m st).2).2) := rfl

theorem processMessages_ids_mono (msgs : List Message) :
    ∀ (st : DedupState) (y : String), y ∈ st.ids →
      y ∈ (processMessages msgs st).2.ids := by
  induction msgs with
  | nil => intro st y h; exact h
  | cons m rest ih =>
    intro st y h
    rw [processMessages_cons]
    exact ih _ y (processMessage_ids_mono m st y h)

/-- After a pass, every identifier derivable from a processed message is
tracked. -/
theorem processMessages_covers (msgs : List Message) :
    ∀ (st : DedupState) (m : Message), m ∈ msgs → ∀ mid,
      deriveMessageId m = some mid → mid ∈ (processMessages msgs st).2.ids := by
  induction msgs with
  | nil => intro st m hm; exact absurd hm (List.not_mem_nil m)
  | cons m0 rest ih =>
    intro st m hm mid hd
    rw [processMessages_cons]
    rcases List.mem_cons.mp hm with rfl | hmem
    · exact processMessages_ids_mono rest _ mid (processMessage_adds_id m st mid hd)
    · exact ih _ m hmem mid hd

/-- A pass over messages all of whose identifiers are already tracked (or
underivable) renders nothing and leaves the tracker unchanged. -/
theorem processMessages_idle (msgs : List Message) :
    ∀ (st : DedupState),
      (∀ m ∈ msgs, ∀ mid, deriveMessageId m = some mid → mid ∈ st.ids) →
      processMessages msgs st = ("", st) := by
  induction msgs with
  | nil => intro st _; rfl
  | cons m rest ih =>
    intro st h
    have hm : processMessage m st = ("", st) := by
      rcases hd : deriveMessageId m with _ | mid
      · exact processMessage_none m st hd
      · exact processMessage_seen m st mid hd
          (h m (List.mem_cons_self _ _) mid hd)
    rw [processMessages_cons, hm]
    have hrest := ih st (fun m2 hm2 mid hd => h m2 (List.mem_cons_of_mem _ hm2) mid hd)
    rw [hrest]
    rfl

/-- The tracker after one chunk entry is either unchanged or the tracker
after the message pass of that entry. -/
theorem processEntry_state (n : String) (d : Option (List Message)) (st : DedupState) :
    (processEntry n d st).2.2 = st ∨
      ∃ msgs, d = some msgs ∧ (processEntry n d st).2.2 = (processMessages msgs st).2 := by
  rcases d with _ | msgs
  · exact Or.inl rfl
  · by_cases hc : pylowerStr n ∈ controlNodes
    · left
      have hcb : controlNodes.contains (pylowerStr n) = true := by
        simpa using hc
      simp only [processEntry, hcb, if_true]
    · right
      refine ⟨msgs, rfl, ?_⟩
      have hcb : controlNodes.contains (pylowerStr n) = false := by
        simpa using hc
      simp only [processEntry, hcb, Bool.false_eq_true, if_false]
      split_ifs <;> rfl

theorem processEntry_ids_mono (n : String) (d : Option (List Message))
    (st : DedupState) (y : String) (h : y ∈ st.ids) :
    y ∈ (processEntry n d st).2.2.ids := by
  rcases processEntry_state n d st with heq | ⟨msgs, _, heq⟩
  · rw [heq]; exact h
  · rw [heq]; exact processMessages_ids_mono msgs st y h

theorem processEntry_covers (n : String) (msgs : List Message) (st : DedupState)
    (hc : controlNodes.contains (pylowerStr n) = false)
    (m : Message) (hm : m ∈ msgs) (mid : String)
    (hd : deriveMessageId m = some mid) :
    mid ∈ (processEntry n (some msgs) st).2.2.ids := by
  have heq : (processEntry n (some msgs) st).2.2 = (processMessages msgs st).2 := by
    simp only [processEntry, hc, Bool.false_eq_true, if_false]
    split_ifs <;> rfl
  rw [heq]
  exact processMessages_covers msgs st m hm mid hd

/-- A chunk entry all of whose message identifiers are already tracked (or
whose agent is a control node, or whose data is not a dict) contributes
nothing to either channel and leaves the tracker unchanged. -/
theorem processEntry_idle (n : String) (d : Option (List Message)) (st : DedupState)
    (h : ∀ msgs, d = some msgs → controlNodes.contains (pylowerStr n) = false →
      ∀ m ∈ msgs, ∀ mid, deriveMessageId m = some mid → mid ∈ st.ids) :
    processEntry n d st = ("", "", st) := by
  rcases d with _ | msgs
  · rfl
  · by_cases hc : controlNodes.contains (pylowerStr n) = true
    · simp only [processEntry, hc, if_true]
    · simp only [Bool.not_eq_true] at hc
      have hmsgs := processMessages_idle msgs st (h msgs rfl hc)
      simp only [processEntry, hc, Bool.false_eq_true, if_false, hmsgs]
      rfl

theorem separate_cons (n : String) (d : Option (List Message))
    (rest : List (String × Option (List Message))) (st : DedupState) :
    separate_agent_outputs ((n, d) :: rest) st =
      ((processEntry n d st).1 ++
          (separate_agent_outputs rest (processEntry n d st).2.2).1,
        (processEntry n d st).2.1 ++
          (separate_agent_outputs rest (processEntry n d st).2.2).2.1,
        (separate_agent_outputs rest (processEntry n d st).2.2).2.2) := rfl

theorem separate_ids_mono (chunk : List (String × Option (List Message))) :
    ∀ (st : DedupState) (y : String), y ∈ st.ids →
      y ∈ (separate_agent_outputs chunk st).2.2.ids := by
  induction chunk with
  | nil => intro st y h; exact h
  | cons e rest ih =>
    intro st y h
    rcases e with ⟨n, d⟩
    rw [separate_cons]
    exact ih _ y (processEntry_ids_mono n d st y h)

theorem separate_covers (chunk : List (String × Option (List Message))) :
    ∀ (st : DedupState) (n : String) (d : Option (List Message)),
      (n, d) ∈ chunk → ∀ msgs, d = some msgs →
      controlNodes.contains (pylowerStr n) = false →
      ∀ m ∈ msgs, ∀ mid, deriveMessageId m = some mid →
      mid ∈ (separate_agent_outputs chunk st).2.2.ids := by
  induction chunk with
  | nil => intro st n d hmem; exact absurd hmem (List.not_mem_nil _)
  | cons e rest ih =>
    intro st n d hmem msgs hd hc m hm mid hmid
    rcases e with ⟨n0, d0⟩
    rw [separate_cons]
    rcases List.mem_cons.mp hmem with heq | hmem2
    · have hn : n0 = n := congrArg Prod.fst heq.symm
      have hdd : d0 = d := congrArg Prod.snd heq.symm
      subst hn hdd
      subst hd
      exact separate_ids_mono rest _ mid
        (processEntry_covers n0 msgs st hc m hm mid hmid)
    · exact ih _ n d hmem2 msgs hd hc m hm mid hmid

theorem separate_idle (chunk : List (String × Option (List Message))) :
    ∀ (st : DedupState),
      (∀ n d, (n, d) ∈ chunk → ∀ msgs, d = some msgs →
        controlNodes.contains (pylowerStr n) = false →
        ∀ m ∈ msgs, ∀ mid, deriveMessageId m = some mid → mid ∈ st.ids) →
      separate_agent_outputs chunk st = ("", "", st) := by
  induction chunk with
  | nil => intro st _; rfl
  | cons e rest ih =>
    intro st h
    rcases e with ⟨n, d⟩
    have he : processEntry n d st = ("", "", st) :=
      processEntry_idle n d st
        (fun msgs hd hc => h n d (List.mem_cons_self _ _) msgs hd hc)
    rw [separate_cons, he]
    have hrest := ih st
      (fun n2 d2 hmem => h n2 d2 (List.mem_cons_of_mem _ hmem))
    rw [hrest]
    rfl

/-! ## Claim C3 — idempotence of the demultiplexer -/

/-- Claim C3: feeding `separate_agent_outputs` the same chunk a second time
(identical messages and identifiers, against the tracker produced by the
first pass) yields empty progress and final output and leaves the tracker
unchanged: every message whose derived identifier is already tracked is
skipped and contributes nothing to either channel. -/
theorem claim3_idempotent (chunk : List (String × Option (List Message)))
    (st : DedupState) :
    separate_agent_outputs chunk (separate_agent_outputs chunk st).2.2 =
      ("", "", (separate_agent_outputs chunk st).2.2) := by
  apply separate_idle
  intro n d hmem msgs hd hc m hm mid hmid
  exact separate_covers chunk st n d hmem msgs hd hc m hm mid hmid

/-! ## Fingerprint-path lemmas and Claim C4 -/

theorem string_append_empty (s : String) : s ++ "" = s := by
  cases s with
  | mk l =>
    show String.mk (l ++ []) = String.mk l
    rw [List.append_nil]

/-- A fresh, non-human message with a non-empty fingerprint not yet tracked
is rendered; its identifier is tracked and its fingerprint recorded. -/
theorem processMessage_fresh (m : Message) (st : DedupState) (mid : String)
    (hd : deriveMessageId m = some mid) (hni : mid ∉ st.ids)
    (hhe : isHumanEcho m = false)
    (hst : pystripStr (fingerprintContent m) ≠ "")
    (hph : strTake (pystripStr (fingerprintContent m)) 300 ∉ st.hashes) :
    (processMessage m st).1 = renderMessage m ∧
    (processMessage m st).2.ids = addElem st.ids mid ∧
    strTake (pystripStr (fingerprintContent m)) 300 ∈ (processMessage m st).2.hashes := by
  have hstb : (pystripStr (fingerprintContent m) != "") = true := bne_iff_ne.mpr hst
  simp only [processMessage, hd]
  rw [if_neg hni]
  simp only [hhe, Bool.false_eq_true, if_false, hstb, if_true]
  rw [if_neg hph]
  refine ⟨rfl, rfl, ?_⟩
  by_cases hts : (toolOnlySig m != "") = true
  · simp only [hts, if_true]
    exact mem_addElem_of_mem _ _ _ (mem_addElem_self _ _)
  · simp only [Bool.not_eq_true] at hts
    simp only [hts, Bool.false_eq_true, if_false]
    exact mem_addElem_self _ _

/-- A fresh, non-human message whose fingerprint is already tracked renders
nothing: its identifier is marked processed and the tracker is otherwise
unchanged. -/
theorem processMessage_hashdup (m : Message) (st : DedupState) (mid : String)
    (hd : deriveMessageId m = some mid) (hni : mid ∉ st.ids)
    (hhe : isHumanEcho m = false)
    (hst : pystripStr (fingerprintContent m) ≠ "")
    (hph : strTake (pystripStr (fingerprintContent m)) 300 ∈ st.hashes) :
    processMessage m st = ("", ⟨addElem st.ids mid, st.hashes⟩) := by
  have hstb : (pystripStr (fingerprintContent m) != "") = true := bne_iff_ne.mpr hst
  simp only [processMessage, hd]
  rw [if_neg hni]
  simp only [hhe, Bool.false_eq_true, if_false, hstb, if_true]
  rw [if_pos hph]

/-- Chunk-entry outputs depend only on the rendered text, so equal rendered
text yields equal progress and final outputs. -/
theorem processEntry_outputs_congr (n : String) (msgs1 msgs2 : List Message)
    (st : DedupState)
    (h : (processMessages msgs1 st).1 = (processMessages msgs2 st).1) :
    (processEntry n (some msgs1) st).1 = (processEntry n (some msgs2) st).1 ∧
    (processEntry n (some msgs1) st).2.1 = (processEntry n (some msgs2) st).2.1 := by
  by_cases hc : controlNodes.contains (pylowerStr n) = true
  · have h1 : processEntry n (some msgs1) st = ("", "", st) := by
      simp only [processEntry, hc, if_true]
    have h2 : processEntry n (some msgs2) st = ("", "", st) := by
      simp only [processEntry, hc, if_true]
    rw [h1, h2]
    exact ⟨rfl, rfl⟩
  · simp only [Bool.not_eq_true] at hc
    simp only [processEntry, hc, Bool.false_eq_true, if_false]
    rw [h]
    constructor <;> (split_ifs <;> rfl)

/-- Claim C4: two messages with different identifiers but identical
fingerprinted content (first 300 characters of the stripped concatenation
of text, canonical tool-call rendering, and tool-result tag), processed in
sequence against a shared tracker, render only the first: the second
message's fingerprint is found in the content-hash set, its identifier is
added to the processed-identifier set, and it produces no rendered output —
so a chunk carrying both yields the same progress and final output as one
carrying only the first. -/
theorem claim4_fingerprint_dedup (m1 m2 : Message) (st : DedupState)
    (i1 i2 : String)
    (hd1 : deriveMessageId m1 = some i1) (hd2 : deriveMessageId m2 = some i2)
    (hne : i1 ≠ i2) (hni1 : i1 ∉ st.ids) (hni2 : i2 ∉ st.ids)
    (hh1 : isHumanEcho m1 = false) (hh2 : isHumanEcho m2 = false)
    (hfp : strTake (pystripStr (fingerprintContent m1)) 300 =
      strTake (pystripStr (fingerprintContent m2)) 300)
    (hs1 : pystripStr (fingerprintContent m1) ≠ "")
    (hph : strTake (pystripStr (fingerprintContent m1)) 300 ∉ st.hashes) :
    processMessage m2 (processMessage m1 st).2 =
      ("", ⟨addElem (processMessage m1 st).2.ids i2,
            (processMessage m1 st).2.hashes⟩) ∧
    (processMessage m1 st).1 = renderMessage m1 ∧
    (∀ n, (separate_agent_outputs [(n, some [m1, m2])] st).1 =
        (separate_agent_outputs [(n, some [m1])] st).1 ∧
      (separate_agent_outputs [(n, some [m1, m2])] st).2.1 =
        (separate_agent_outputs [(n, some [m1])] st).2.1) := by
  have hfresh := processMessage_fresh m1 st i1 hd1 hni1 hh1 hs1 hph
  have hs1t : strTake (pystripStr (fingerprintContent m1)) 300 ≠ "" := by
    intro h
    apply hs1
    cases hsw : pystripStr (fingerprintContent m1) with
    | mk l =>
      cases l with
      | nil => rfl
      | cons c t =>
        rw [hsw] at h
        exact absurd (congrArg String.data h) (by simp [strTake])
  have hs2 : pystripStr (fingerprintContent m2) ≠ "" := by
    intro h
    rw [h] at hfp
    exact hs1t (hfp.trans rfl)
  have hni2' : i2 ∉ (processMessage m1 st).2.ids := by
    rw [hfresh.2.1, mem_addElem_iff]
    rintro (h | h)
    · exact hni2 h
    · exact hne h.symm
  have hph2 : strTake (pystripStr (fingerprintContent m2)) 300 ∈
      (processMessage m1 st).2.hashes := by
    rw [← hfp]
    exact hfresh.2.2
  have hdup := processMessage_hashdup m2 (processMessage m1 st).2 i2 hd2 hni2' hh2 hs2 hph2
  refine ⟨hdup, hfresh.1, ?_⟩
  intro n
  have htext : (processMessages [m1, m2] st).1 = (processMessages [m1] st).1 := by
    rw [processMessages_cons, processMessages_cons, hdup]
    rfl
  have hcongr := processEntry_outputs_congr n [m1, m2] [m1] st htext
  constructor
  · show (processEntry n (some [m1, m2]) st).1 ++ "" = (processEntry n (some [m1]) st).1 ++ ""
    rw [hcongr.1]
  · show (processEntry n (some [m1, m2]) st).2.1 ++ "" =
      (processEntry n (some [m1]) st).2.1 ++ ""
    rw [hcongr.2]

/-- Witness for C4: two plain agent messages with ids `"a"`, `"b"` and the
same text `"same"`; the second renders nothing and its id is tracked. -/
theorem claim4_witness :
    processMessage
      { id := some "b", mtype := some "ai", role := none, name := none,
        tool_call_id := none, content := MsgContent.str "same", tool_calls := none }
      (processMessage
        { id := some "a", mtype := some "ai", role := none, name := none,
          tool_call_id := none, content := MsgContent.str "same", tool_calls := none }
        ⟨[], []⟩).2 =
      ("", ⟨addElem (processMessage
        { id := some "a", mtype := some "ai", role := none, name := none,
          tool_call_id := none, content := MsgContent.str "same", tool_calls := none }
        ⟨[], []⟩).2.ids "b",
        (processMessage
        { id := some "a", mtype := some "ai", role := none, name := none,
          tool_call_id := none, content := MsgContent.str "same", tool_calls := none }
        ⟨[], []⟩).2.hashes⟩) := by
  exact (claim4_fingerprint_dedup
    { id := some "a", mtype := some "ai", role := none, name := none,
      tool_call_id := none, content := MsgContent.str "same", tool_calls := none }
    { id := some "b", mtype := some "ai", role := none, name := none,
      tool_call_id := none, content := MsgContent.str "same", tool_calls := none }
    ⟨[], []⟩ "a" "b" rfl rfl (by decide) (by decide) (by decide)
    (by decide) (by decide) (by decide) (by decide) (by decide)).1

/-! ## Claim C5 — control-node skip and channel routing -/

theorem formatBlock_ne_empty (a b : String) : formatBlock a b ≠ "" := by
  intro h
  have h2 := congrArg String.length h
  rw [show formatBlock a b =
    "\n\n**" ++ pyupperStr a ++ "**\n" ++ dashes40 ++ "\n\n" ++ b from rfl] at h2
  simp only [String.length_append] at h2
  rw [show String.length "\n\n**" = 4 from rfl,
    show String.length "" = 0 from rfl] at h2
  omega

/-- Claim C5: chunk entries named `human_chat`, `__start__` or `__end__`
(case-insensitive) contribute nothing to either channel; and for an entry
that renders output, the block goes to the final channel iff the (possibly
supervisor-relabelled) agent name is `planning_agent` or `report_agent`
(case-insensitive), and to the progress channel otherwise. -/
theorem claim5_channel_routing :
    (∀ (name : String) (data : Option (List Message)) (st : DedupState),
      controlNodes.contains (pylowerStr name) = true →
      processEntry name data st = ("", "", st)) ∧
    (∀ (name : String) (msgs : List Message) (st : DedupState),
      controlNodes.contains (pylowerStr name) = false →
      (processMessages msgs st).1 ≠ "" →
      (((processEntry name (some msgs) st).2.1 ≠ "" ↔
          finalAgents.contains (pylowerStr
            (effectiveAgentName (processMessages msgs st).1 name)) = true) ∧
        ((processEntry name (some msgs) st).1 ≠ "" ↔
          finalAgents.contains (pylowerStr
            (effectiveAgentName (processMessages msgs st).1 name)) = false))) := by
  constructor
  · intro name data st hc
    rcases data with _ | msgs
    · rfl
    · simp only [processEntry, hc, if_true]
  · intro name msgs st hc hout
    have hb : ((processMessages msgs st).1 != "") = true := bne_iff_ne.mpr hout
    simp only [processEntry, hc, Bool.false_eq_true, if_false, hb, if_true]
    by_cases hf : finalAgents.contains (pylowerStr
        (effectiveAgentName (processMessages msgs st).1 name)) = true
    · simp only [hf, if_true]
      constructor
      · simp only [hf, iff_true]
        exact formatBlock_ne_empty _ _
      · simp [hf]
    · simp only [Bool.not_eq_true] at hf
      simp only [hf, Bool.false_eq_true, if_false]
      constructor
      · simp [hf]
      · simp only [hf, iff_true]
        exact formatBlock_ne_empty _ _

/-- Witness for C5: a `HUMAN_CHAT` entry is skipped, and a plain
`research_agent` message lands in the progress channel, not the final one. -/
theorem claim5_witness :
    processEntry "HUMAN_CHAT"
      (some [{ id := some "a", mtype := some "ai", role := none, name := none,
               tool_call_id := none, content := MsgContent.str "hi",
               tool_calls := none }])
      ⟨[], []⟩ = ("", "", ⟨[], []⟩) ∧
    ¬ ((processEntry "research_agent"
        (some [{ id := some "a", mtype := some "ai", role := none, name := none,
                 tool_call_id := none, content := MsgContent.str "hi",
                 tool_calls := none }]) ⟨[], []⟩).2.1 ≠ "") ∧
    (processEntry "research_agent"
        (some [{ id := some "a", mtype := some "ai", role := none, name := none,
                 tool_call_id := none, content := MsgContent.str "hi",
                 tool_calls := none }]) ⟨[], []⟩).1 ≠ "" := by
  refine ⟨claim5_channel_routing.1 "HUMAN_CHAT" _ ⟨[], []⟩ (by decide), ?_, ?_⟩
  · have h := (claim5_channel_routing.2 "research_agent"
      [{ id := some "a", mtype := some "ai", role := none, name := none,
         tool_call_id := none, content := MsgContent.str "hi", tool_calls := none }]
      ⟨[], []⟩ (by decide) (by decide)).1
    intro hne
    have := h.mp hne
    exact absurd this (by decide)
  · have h := (claim5_channel_routing.2 "research_agent"
      [{ id := some "a", mtype := some "ai", role := none, name := none,
         tool_call_id := none, content := MsgContent.str "hi", tool_calls := none }]
      ⟨[], []⟩ (by decide) (by decide)).2
    exact h.mpr (by decide)

/-! ## Scanning lemmas for the tool-block splitter -/

theorem startsWithSeq_append_self (n r : List Char) :
    startsWithSeq (n ++ r) n = true :=
  (startsWithSeq_iff n (n ++ r)).mpr ⟨r, rfl⟩

theorem startsWithSeq_nil_needle (l : List Char) : startsWithSeq l [] = true := by
  cases l <;> rfl

theorem startsWithSeq_trunc (n : List Char) : ∀ (a z : List Char),
    n.length ≤ a.length → startsWithSeq (a ++ z) n = startsWithSeq a n := by
  induction n with
  | nil =>
    intro a z _
    rw [startsWithSeq_nil_needle, startsWithSeq_nil_needle]
  | cons d n ih =>
    intro a z hlen
    cases a with
    | nil => simp at hlen
    | cons c t =>
      simp only [List.cons_append, startsWithSeq, List.append_eq]
      rw [ih t z (by simpa using hlen)]

theorem breakAtSeq_of_startsWith (n l : List Char)
    (h : startsWithSeq l n = true) :
    breakAtSeq n l = some ([], l.drop n.length) := by
  cases l with
  | nil =>
    rcases (startsWithSeq_iff n []).mp h with ⟨r, hr⟩
    rcases List.append_eq_nil.mp hr.symm with ⟨rfl, rfl⟩
    rfl
  | cons c t =>
    simp only [breakAtSeq, h, if_true]

theorem cleanPre_skip (n : List Char) : ∀ (a rest : List Char),
    cleanPre n a rest = true →
    breakAtSeq n (a ++ rest) =
      (breakAtSeq n rest).map (fun pr => (a ++ pr.1, pr.2)) := by
  intro a
  induction a with
  | nil =>
    intro rest _
    cases hb : breakAtSeq n rest with
    | none => simp [hb]
    | some pr => simp [hb]
  | cons c a ih =>
    intro rest hclean
    simp only [cleanPre, Bool.and_eq_true, Bool.not_eq_true'] at hclean
    have h1 : startsWithSeq (c :: (a ++ rest)) n = false := hclean.1
    have h2 := ih rest hclean.2
    simp only [List.cons_append, breakAtSeq, List.append_eq, h1,
      Bool.false_eq_true, if_false]
    rw [h2]
    cases hb : breakAtSeq n rest with
    | none => rfl
    | some pr => rfl

theorem cleanPre_append_iff (n : List Char) : ∀ (a b rest : List Char),
    cleanPre n (a ++ b) rest = true ↔
      (cleanPre n a (b ++ rest) = true ∧ cleanPre n b rest = true) := by
  intro a
  induction a with
  | nil =>
    intro b rest
    simp [cleanPre]
  | cons c a ih =>
    intro b rest
    simp only [List.cons_append, cleanPre, Bool.and_eq_true, ih, List.append_assoc,
      List.append_eq]
    tauto

theorem cleanPre_of_head_ne (d : Char) (n2 : List Char) :
    ∀ (a rest : List Char), (∀ c ∈ a, c ≠ d) →
      cleanPre (d :: n2) a rest = true := by
  intro a
  induction a with
  | nil => intro rest _; rfl
  | cons c a ih =>
    intro rest h
    have hcd : (c == d) = false :=
      beq_eq_false_iff_ne.mpr (h c (List.mem_cons_self _ _))
    simp only [cleanPre, Bool.and_eq_true, Bool.not_eq_true']
    refine ⟨?_, ih rest (fun x hx => h x (List.mem_cons_of_mem _ hx))⟩
    simp [startsWithSeq, hcd]

theorem startsWithSeq_through (ch : Char) (n : List Char) (hch : ch ∉ n) :
    ∀ (a r : List Char), startsWithSeq (a ++ ch :: r) n = true →
      startsWithSeq a n = true := by
  induction n with
  | nil => intro a r _; cases a <;> rfl
  | cons d n2 ih =>
    intro a r h
    cases a with
    | nil =>
      simp only [List.nil_append, startsWithSeq, Bool.and_eq_true, beq_iff_eq] at h
      exact absurd (h.1 ▸ List.mem_cons_self d n2) (h.1 ▸ hch)
    | cons c t =>
      simp only [List.cons_append, startsWithSeq, Bool.and_eq_true] at h ⊢
      exact ⟨h.1, ih (fun hm => hch (List.mem_cons_of_mem _ hm)) t r h.2⟩

theorem cleanPre_of_no_contains (ch : Char) (n : List Char) (hch : ch ∉ n) :
    ∀ (a r : List Char), containsSeq a n = false →
      cleanPre n a (ch :: r) = true := by
  intro a
  induction a with
  | nil => intro r _; rfl
  | cons c a ih =>
    intro r hcont
    simp only [containsSeq, Bool.or_eq_true, Bool.not_eq_true] at hcont
    have hcont' : ¬ (startsWithSeq (c :: a) n = true ∨ containsSeq a n = true) := by
      intro h
      rcases h with h | h <;> simp [h] at hcont
    push_neg at hcont'
    simp only [cleanPre, Bool.and_eq_true, Bool.not_eq_true']
    constructor
    · rw [show c :: (a ++ ch :: r) = (c :: a) ++ ch :: r from rfl]
      by_cases hs : startsWithSeq ((c :: a) ++ ch :: r) n = true
      · exact absurd (startsWithSeq_through ch n hch (c :: a) r hs)
          (by simpa using hcont'.1)
      · simpa using hs
    · exact ih r (by simpa using hcont'.2)

/-! ## Strip-structure lemmas -/

theorem string_mk_data (s : String) : String.mk s.data = s := by
  cases s
  rfl

theorem string_data_append (s t : String) : (s ++ t).data = s.data ++ t.data := rfl

theorem dropWhile_head_false (p : Char → Bool) :
    ∀ (l : List Char) (c : Char) (t : List Char),
      List.dropWhile p l = c :: t → p c = false := by
  intro l
  induction l with
  | nil => intro c t h; simp [List.dropWhile] at h
  | cons a l2 ih =>
    intro c t h
    rw [List.dropWhile_cons] at h
    by_cases hp : p a = true
    · rw [if_pos hp] at h
      exact ih c t h
    · rw [if_neg hp] at h
      rcases List.cons_eq_cons.mp h with ⟨rfl, _⟩
      simpa using hp

theorem stripList_eq_append (l : List Char) :
    ∃ t, List.dropWhile pyws l = stripList l ++ t := by
  refine ⟨(List.takeWhile pyws (List.dropWhile pyws l).reverse).reverse, ?_⟩
  conv_lhs => rw [← List.reverse_reverse (List.dropWhile pyws l),
    ← List.takeWhile_append_dropWhile (p := pyws)
      (l := (List.dropWhile pyws l).reverse)]
  rw [List.reverse_append]
  rfl

theorem stripList_head_not_ws (l : List Char) (c : Char) (t : List Char)
    (h : stripList l = c :: t) : pyws c = false := by
  obtain ⟨ws, hws⟩ := stripList_eq_append l
  rw [h, List.cons_append] at hws
  exact dropWhile_head_false pyws l c (t ++ ws) hws

theorem stripList_rev_eq (l : List Char) :
    (stripList l).reverse = List.dropWhile pyws (List.dropWhile pyws l).reverse := by
  simp [stripList]

theorem stripList_rev_head_not_ws (l : List Char) (c : Char) (t : List Char)
    (h : (stripList l).reverse = c :: t) : pyws c = false := by
  rw [stripList_rev_eq] at h
  exact dropWhile_head_false pyws _ c t h

theorem dropWhile_eq_self_of_none (p : Char → Bool) :
    ∀ (l : List Char), (∀ c ∈ l, p c = false) → List.dropWhile p l = l := by
  intro l
  induction l with
  | nil => intro _; rfl
  | cons a l2 _ =>
    intro h
    rw [List.dropWhile_cons, if_neg (by simp [h a (List.mem_cons_self _ _)])]

theorem stripList_eq_self (l : List Char) (h : ∀ c ∈ l, pyws c = false) :
    stripList l = l := by
  unfold stripList
  rw [dropWhile_eq_self_of_none pyws l h,
    dropWhile_eq_self_of_none pyws l.reverse (fun c hc => h c (List.mem_reverse.mp hc)),
    List.reverse_reverse]

theorem dropWhile_ne_nil_of_exists (p : Char → Bool) :
    ∀ (l : List Char), (∃ c ∈ l, p c = false) → List.dropWhile p l ≠ [] := by
  intro l
  induction l with
  | nil => rintro ⟨c, hc, _⟩; exact absurd hc (List.not_mem_nil c)
  | cons a l2 ih =>
    rintro ⟨c, hc, hpc⟩
    rw [List.dropWhile_cons]
    by_cases hp : p a = true
    · rw [if_pos hp]
      rcases List.mem_cons.mp hc with rfl | hc2
      · rw [hp] at hpc; exact absurd hpc (by decide)
      · exact ih ⟨c, hc2, hpc⟩
    · rw [if_neg hp]
      simp

theorem stripList_ne_nil (l : List Char) (h : ∃ c ∈ l, pyws c = false) :
    stripList l ≠ [] := by
  intro hnil
  have h2 : (stripList l).reverse = [] := by rw [hnil]; rfl
  rw [stripList_rev_eq] at h2
  rcases h with ⟨c, hc, hpc⟩
  have hd1 : List.dropWhile pyws l ≠ [] := dropWhile_ne_nil_of_exists pyws l ⟨c, hc, hpc⟩
  rcases hd : List.dropWhile pyws l with _ | ⟨d, dt⟩
  · exact hd1 hd
  · have hdin : d ∈ List.dropWhile pyws l := by rw [hd]; exact List.mem_cons_self _ _
    have hdns : pyws d = false := dropWhile_head_false pyws l d dt hd
    apply dropWhile_ne_nil_of_exists pyws (List.dropWhile pyws l).reverse
      ⟨d, List.mem_reverse.mpr hdin, hdns⟩
    exact h2

/-- Stripping the region between the markers of a well-formed wrapped block:
a leading newline, then metadata starting with a non-whitespace character,
an interior newline, the body (whose final character is non-whitespace),
and a trailing newline. -/
theorem strip_region (metaT B : List Char) (x : Char) (xt : List Char)
    (hBrev : B.reverse = x :: xt) (hx : pyws x = false) :
    stripList ('\n' :: (('<' :: metaT) ++ ('\n' :: (B ++ ['\n'])))) =
      ('<' :: metaT) ++ ('\n' :: B) := by
  unfold stripList
  have h1 : List.dropWhile pyws
      ('\n' :: (('<' :: metaT) ++ ('\n' :: (B ++ ['\n'])))) =
      '<' :: (metaT ++ ('\n' :: (B ++ ['\n']))) := by
    rw [List.dropWhile_cons, if_pos (by decide), List.cons_append,
      List.dropWhile_cons, if_neg (by decide)]
  rw [h1]
  have h2 : ('<' :: (metaT ++ ('\n' :: (B ++ ['\n'])))).reverse =
      '\n' :: (B.reverse ++ ('\n' :: (metaT.reverse ++ ['<']))) := by
    simp
  rw [h2, List.dropWhile_cons, if_pos (by decide), hBrev, List.cons_append,
    List.dropWhile_cons, if_neg (by simp [hx])]
  rw [← List.cons_append, ← hBrev]
  simp

/-! ## Metadata-splitting lemmas -/

theorem splitOnChar_ne_nil (sep : Char) : ∀ (l : List Char),
    splitOnChar sep l ≠ [] := by
  intro l
  induction l with
  | nil => simp [splitOnChar]
  | cons c t ih =>
    show (match splitOnChar sep t with
      | [] => [[c]]
      | g :: gs => if c == sep then [] :: (g :: gs) else (c :: g) :: gs) ≠ []
    rcases h : splitOnChar sep t with _ | ⟨g, gs⟩
    · simp
    · split_ifs <;> simp

theorem splitOnChar_cons (sep c : Char) (t : List Char) :
    splitOnChar sep (c :: t) =
      (match splitOnChar sep t with
        | [] => [[c]]
        | g :: gs => if c == sep then [] :: (g :: gs) else (c :: g) :: gs) := rfl

theorem splitOnChar_no_sep (sep : Char) : ∀ (l : List Char),
    (∀ c ∈ l, c ≠ sep) → splitOnChar sep l = [l] := by
  intro l
  induction l with
  | nil => intro _; rfl
  | cons c t ih =>
    intro h
    rw [splitOnChar_cons, ih (fun x hx => h x (List.mem_cons_of_mem _ hx))]
    simp only [if_neg]
    rw [if_neg (by simpa using h c (List.mem_cons_self _ _))]

theorem splitOnChar_single (sep : Char) : ∀ (a b : List Char),
    (∀ c ∈ a, c ≠ sep) → (∀ c ∈ b, c ≠ sep) →
    splitOnChar sep (a ++ sep :: b) = [a, b] := by
  intro a
  induction a with
  | nil =>
    intro b _ hb
    rw [List.nil_append, splitOnChar_cons, splitOnChar_no_sep sep b hb]
    simp
  | cons c a ih =>
    intro b ha hb
    rw [List.cons_append, splitOnChar_cons,
      ih b (fun x hx => ha x (List.mem_cons_of_mem _ hx)) hb]
    show (if (c == sep) = true then [] :: a :: [b] else (c :: a) :: [b]) = [c :: a, b]
    rw [if_neg (by simpa using ha c (List.mem_cons_self _ _))]

/-! ## Token-class hypotheses for the round trip -/

/-- Kind and source tokens for which the metadata syntax is lossless:
non-empty strings of alphanumeric characters and underscores. -/
def tokenOk (s : String) : Prop :=
  s ≠ "" ∧ ∀ c ∈ s.data, (c.isAlphanum = true ∨ c = '_')

instance (s : String) : Decidable (tokenOk s) := by
  unfold tokenOk
  infer_instance

theorem tokenChar_props (c : Char) (h : c.isAlphanum = true ∨ c = '_') :
    c ≠ '<' ∧ c ≠ '-' ∧ c ≠ '|' ∧ c ≠ '=' ∧ pyws c = false := by
  rcases h with h | rfl
  · refine ⟨?_, ?_, ?_, ?_, ?_⟩
    · rintro rfl; exact absurd h (by decide)
    · rintro rfl; exact absurd h (by decide)
    · rintro rfl; exact absurd h (by decide)
    · rintro rfl; exact absurd h (by decide)
    · by_contra hw
      simp only [Bool.not_eq_false] at hw
      have hc : c = ' ' ∨ c = '\t' ∨ c = '\n' ∨ c = '\r' ∨ c = '\x0b' ∨
          c = '\x0c' := by
        simp only [pyws, Bool.or_eq_true, beq_iff_eq] at hw
        tauto
      rcases hc with rfl | rfl | rfl | rfl | rfl | rfl <;> exact absurd h (by decide)
  · exact ⟨by decide, by decide, by decide, by decide, by decide⟩

/-! ## Metadata-part evaluation lemmas -/

theorem applyMetaPart_kind (acc : String × Option String) (kind : String)
    (hk : tokenOk kind) :
    applyMetaPart acc ("kind=".data ++ kind.data) = (kind, acc.2) := by
  have hsh : "kind=".data ++ kind.data = "kind".data ++ ('=' :: kind.data) := by
    rw [show "kind=".data = "kind".data ++ ['='] from rfl, List.append_assoc]
    rfl
  have hcont : containsSeq ("kind=".data ++ kind.data) ['='] = true := by
    rw [hsh]
    exact (containsSeq_iff _ _).mpr ⟨"kind".data, kind.data, rfl⟩
  have hsw : startsWithSeq ('=' :: kind.data) ['='] = true := by
    simp [startsWithSeq, startsWithSeq_nil_needle]
  have hbr : breakAtSeq ['='] ("kind".data ++ ('=' :: kind.data)) =
      some ("kind".data, kind.data) := by
    rw [cleanPre_skip ['='] "kind".data _
        (cleanPre_of_head_ne '=' [] "kind".data _ (by decide)),
      breakAtSeq_of_startsWith _ _ hsw]
    simp
  have hvstrip : pystripStr (String.mk kind.data) = kind := by
    rw [string_mk_data]
    unfold pystripStr
    rw [stripList_eq_self kind.data
      (fun c hc => (tokenChar_props c (hk.2 c hc)).2.2.2.2)]
  rw [applyMetaPart, if_pos hcont]
  rw [show splitOnce ['='] ("kind=".data ++ kind.data) = ["kind".data, kind.data] by
    rw [splitOnce, hsh, hbr]]
  show (if (pylowerStr (pystripStr (String.mk "kind".data)) == "kind" &&
      pystripStr (String.mk kind.data) != "") = true then
      (pystripStr (String.mk kind.data), acc.2)
    else if (pylowerStr (pystripStr (String.mk "kind".data)) == "source" &&
      pystripStr (String.mk kind.data) != "") = true then
      (acc.1, some (pystripStr (String.mk kind.data)))
    else acc) = (kind, acc.2)
  rw [hvstrip]
  rw [if_pos (by
    simp only [show (pylowerStr (pystripStr (String.mk "kind".data)) == "kind") = true
      from rfl, Bool.true_and, bne_iff_ne]
    exact hk.1)]

theorem applyMetaPart_source (acc : String × Option String) (source : String)
    (hsrc : tokenOk source) :
    applyMetaPart acc ("source=".data ++ source.data) = (acc.1, some source) := by
  have hsh : "source=".data ++ source.data = "source".data ++ ('=' :: source.data) := by
    rw [show "source=".data = "source".data ++ ['='] from rfl, List.append_assoc]
    rfl
  have hcont : containsSeq ("source=".data ++ source.data) ['='] = true := by
    rw [hsh]
    exact (containsSeq_iff _ _).mpr ⟨"source".data, source.data, rfl⟩
  have hsw : startsWithSeq ('=' :: source.data) ['='] = true := by
    simp [startsWithSeq, startsWithSeq_nil_needle]
  have hbr : breakAtSeq ['='] ("source".data ++ ('=' :: source.data)) =
      some ("source".data, source.data) := by
    rw [cleanPre_skip ['='] "source".data _
        (cleanPre_of_head_ne '=' [] "source".data _ (by decide)),
      breakAtSeq_of_startsWith _ _ hsw]
    simp
  have hvstrip : pystripStr (String.mk source.data) = source := by
    rw [string_mk_data]
    unfold pystripStr
    rw [stripList_eq_self source.data
      (fun c hc => (tokenChar_props c (hsrc.2 c hc)).2.2.2.2)]
  rw [applyMetaPart, if_pos hcont]
  rw [show splitOnce ['='] ("source=".data ++ source.data) =
      ["source".data, source.data] by
    rw [splitOnce, hsh, hbr]]
  show (if (pylowerStr (pystripStr (String.mk "source".data)) == "kind" &&
      pystripStr (String.mk source.data) != "") = true then
      (pystripStr (String.mk source.data), acc.2)
    else if (pylowerStr (pystripStr (String.mk "source".data)) == "source" &&
      pystripStr (String.mk source.data) != "") = true then
      (acc.1, some (pystripStr (String.mk source.data)))
    else acc) = (acc.1, some source)
  rw [hvstrip]
  rw [if_neg (by
    simp only [show (pylowerStr (pystripStr (String.mk "source".data)) == "kind") = false
      from rfl, Bool.false_and]
    simp)]
  rw [if_pos (by
    simp only [show (pylowerStr (pystripStr (String.mk "source".data)) == "source") = true
      from rfl, Bool.true_and, bne_iff_ne]
    exact hsrc.1)]

/-! ## Parsing a well-formed wrapped metadata block -/

theorem parse_wrapped_block (kind source : String) (B : List Char)
    (hk : tokenOk kind) (hsrc : tokenOk source)
    (hBne : B ≠ []) (hBhead : ∀ c t, B = c :: t → pyws c = false) :
    parseToolBlockMetadata
      (TOOL_BLOCK_META_PREFIX.data ++
        ((("kind=".data ++ kind.data) ++ ('|' :: ("source=".data ++ source.data))) ++
          (TOOL_BLOCK_META_SUFFIX.data ++ ('\n' :: B)))) =
      (kind, some source, B) := by
  have harr : TOOL_BLOCK_META_SUFFIX.data = '-' :: ['-', '>'] := by decide
  have hPd : TOOL_BLOCK_META_PREFIX.data =
      ['<', '!'] ++ (['-', '-'] ++ "TOOL_BLOCK_META:".data) := by decide
  have htmb : "TOOL_BLOCK_META:".data = 'T' :: ('O' :: "OL_BLOCK_META:".data) := by
    decide
  have hsegne : ∀ c ∈ ("kind=".data ++ kind.data) ++
      ('|' :: ("source=".data ++ source.data)), c ≠ '-' := by
    intro c hc
    rcases List.mem_append.mp hc with hc1 | hc2
    · rcases List.mem_append.mp hc1 with hca | hcb
      · exact (show ∀ x ∈ "kind=".data, x ≠ '-' by decide) c hca
      · exact (tokenChar_props c (hk.2 c hcb)).2.1
    · rcases List.mem_cons.mp hc2 with rfl | hc3
      · decide
      · rcases List.mem_append.mp hc3 with hca | hcb
        · exact (show ∀ x ∈ "source=".data, x ≠ '-' by decide) c hca
        · exact (tokenChar_props c (hsrc.2 c hcb)).2.1
  have hclean : cleanPre TOOL_BLOCK_META_SUFFIX.data
      (TOOL_BLOCK_META_PREFIX.data ++
        (("kind=".data ++ kind.data) ++ ('|' :: ("source=".data ++ source.data))))
      (TOOL_BLOCK_META_SUFFIX.data ++ ('\n' :: B)) = true := by
    rw [cleanPre_append_iff]
    constructor
    · rw [hPd, cleanPre_append_iff]
      constructor
      · rw [harr]
        exact cleanPre_of_head_ne '-' ['-', '>'] ['<', '!'] _ (by decide)
      · rw [cleanPre_append_iff]
        constructor
        · simp only [cleanPre, Bool.and_eq_true, Bool.not_eq_true']
          refine ⟨?_, ?_, trivial⟩
          · rw [show ('-' :: (['-'] ++ ("TOOL_BLOCK_META:".data ++
                ((("kind=".data ++ kind.data) ++
                  ('|' :: ("source=".data ++ source.data))) ++
                  (TOOL_BLOCK_META_SUFFIX.data ++ ('\n' :: B)))))) =
              ['-', '-', 'T'] ++ ('O' :: ("OL_BLOCK_META:".data ++
                ((("kind=".data ++ kind.data) ++
                  ('|' :: ("source=".data ++ source.data))) ++
                  (TOOL_BLOCK_META_SUFFIX.data ++ ('\n' :: B))))) by
              rw [htmb]
              rfl]
            rw [startsWithSeq_trunc _ _ _ (by rw [harr]; decide)]
            rw [harr]
            decide
          · rw [show ('-' :: (List.nil ++ ("TOOL_BLOCK_META:".data ++
                ((("kind=".data ++ kind.data) ++
                  ('|' :: ("source=".data ++ source.data))) ++
                  (TOOL_BLOCK_META_SUFFIX.data ++ ('\n' :: B)))))) =
              ['-', 'T', 'O'] ++ ("OL_BLOCK_META:".data ++
                ((("kind=".data ++ kind.data) ++
                  ('|' :: ("source=".data ++ source.data))) ++
                  (TOOL_BLOCK_META_SUFFIX.data ++ ('\n' :: B)))) by
              rw [htmb]
              rfl]
            rw [startsWithSeq_trunc _ _ _ (by rw [harr]; decide)]
            rw [harr]
            decide
        · rw [harr]
          exact cleanPre_of_head_ne '-' ['-', '>'] "TOOL_BLOCK_META:".data _
            (by decide)
    · rw [harr]
      exact cleanPre_of_head_ne '-' ['-', '>'] _ _ (fun c hc => hsegne c hc)
  have hbreak : breakAtSeq TOOL_BLOCK_META_SUFFIX.data
      (TOOL_BLOCK_META_PREFIX.data ++
        ((("kind=".data ++ kind.data) ++ ('|' :: ("source=".data ++ source.data))) ++
          (TOOL_BLOCK_META_SUFFIX.data ++ ('\n' :: B)))) =
      some (TOOL_BLOCK_META_PREFIX.data ++
        (("kind=".data ++ kind.data) ++ ('|' :: ("source=".data ++ source.data))),
        '\n' :: B) := by
    rw [← List.append_assoc]
    rw [cleanPre_skip _ _ _ hclean,
      breakAtSeq_of_startsWith _ _ (startsWithSeq_append_self _ _)]
    simp [List.drop_left]
  have hdrop : (TOOL_BLOCK_META_PREFIX.data ++
      (("kind=".data ++ kind.data) ++
        ('|' :: ("source=".data ++ source.data)))).drop
      TOOL_BLOCK_META_PREFIX.length =
      ("kind=".data ++ kind.data) ++ ('|' :: ("source=".data ++ source.data)) := by
    rw [show TOOL_BLOCK_META_PREFIX.length = TOOL_BLOCK_META_PREFIX.data.length
      from rfl]
    exact List.drop_left _ _
  have hsplit : splitOnChar '|'
      (("kind=".data ++ kind.data) ++ ('|' :: ("source=".data ++ source.data))) =
      ["kind=".data ++ kind.data, "source=".data ++ source.data] := by
    apply splitOnChar_single
    · intro c hc
      rcases List.mem_append.mp hc with hc1 | hc2
      · exact (show ∀ x ∈ "kind=".data, x ≠ '|' by decide) c hc1
      · exact (tokenChar_props c (hk.2 c hc2)).2.2.1
    · intro c hc
      rcases List.mem_append.mp hc with hc1 | hc2
      · exact (show ∀ x ∈ "source=".data, x ≠ '|' by decide) c hc1
      · exact (tokenChar_props c (hsrc.2 c hc2)).2.2.1
  rw [parseToolBlockMetadata, if_pos (startsWithSeq_append_self _ _), hbreak]
  show (let metaSeg := (TOOL_BLOCK_META_PREFIX.data ++
      (("kind=".data ++ kind.data) ++
        ('|' :: ("source=".data ++ source.data)))).drop TOOL_BLOCK_META_PREFIX.length
    let r := (splitOnChar '|' metaSeg).foldl applyMetaPart ("call", none)
    (r.1, r.2, ('\n' :: B).dropWhile pyws)) = (kind, some source, B)
  rw [hdrop]
  have hdw : List.dropWhile pyws ('\n' :: B) = B := by
    rcases hB : B with _ | ⟨c, t⟩
    · exact absurd hB hBne
    · rw [List.dropWhile_cons, if_pos (by decide), List.dropWhile_cons,
        if_neg (by simp [hBhead c t hB])]
  simp only [hsplit, List.foldl_cons, List.foldl_nil]
  rw [applyMetaPart_kind _ _ hk, applyMetaPart_source _ _ hsrc, hdw]

/-! ## Cleanliness of the wrapped region with respect to the end marker -/

theorem startsWithSeq_cons_append_false (c : Char) (a z n : List Char)
    (hlen : n.length ≤ (c :: a).length)
    (hfalse : startsWithSeq (c :: a) n = false) :
    startsWithSeq (c :: (a ++ z)) n = false := by
  rw [show (c :: (a ++ z)) = (c :: a) ++ z from rfl,
    startsWithSeq_trunc n (c :: a) z hlen]
  exact hfalse

theorem cleanPre_singleton (n : List Char) (c : Char) (rest : List Char)
    (h : startsWithSeq (c :: rest) n = false) : cleanPre n [c] rest = true := by
  simp [cleanPre, h]

theorem clean_region_end (kind source : String) (B : List Char)
    (hk : tokenOk kind) (hsrc : tokenOk source)
    (hnoEnd : containsSeq B TOOL_CALL_END_MARKER.data = false) :
    cleanPre TOOL_CALL_END_MARKER.data
      ('\n' :: ((TOOL_BLOCK_META_PREFIX.data ++
          ((("kind=".data ++ kind.data) ++
            ('|' :: ("source=".data ++ source.data))) ++
            TOOL_BLOCK_META_SUFFIX.data)) ++
        ('\n' :: (B ++ ['\n']))))
      (TOOL_CALL_END_MARKER.data ++ ['\n']) = true := by
  have hEc : TOOL_CALL_END_MARKER.data = '<' :: "!--TOOL_CALL_END-->".data := by
    decide
  rw [show ('\n' :: ((TOOL_BLOCK_META_PREFIX.data ++
      ((("kind=".data ++ kind.data) ++ ('|' :: ("source=".data ++ source.data))) ++
        TOOL_BLOCK_META_SUFFIX.data)) ++ ('\n' :: (B ++ ['\n'])))) =
    ['\n'] ++ ((TOOL_BLOCK_META_PREFIX.data ++
      ((("kind=".data ++ kind.data) ++ ('|' :: ("source=".data ++ source.data))) ++
        TOOL_BLOCK_META_SUFFIX.data)) ++ (['\n'] ++ (B ++ ['\n']))) from rfl]
  rw [hEc]
  refine (cleanPre_append_iff _ _ _ _).mpr ⟨?_, ?_⟩
  · exact cleanPre_of_head_ne '<' _ ['\n'] _ (by decide)
  · refine (cleanPre_append_iff _ _ _ _).mpr ⟨?_, ?_⟩
    · refine (cleanPre_append_iff _ _ _ _).mpr ⟨?_, ?_⟩
      · rw [show TOOL_BLOCK_META_PREFIX.data =
          ['<'] ++ "!--TOOL_BLOCK_META:".data from by decide]
        refine (cleanPre_append_iff _ _ _ _).mpr ⟨?_, ?_⟩
        · apply cleanPre_singleton
          exact startsWithSeq_cons_append_false '<' "!--TOOL_BLOCK_META:".data _ _
            (by decide) (by decide)
        · exact cleanPre_of_head_ne '<' _ "!--TOOL_BLOCK_META:".data _ (by decide)
      · refine (cleanPre_append_iff _ _ _ _).mpr ⟨?_, ?_⟩
        · apply cleanPre_of_head_ne '<'
          intro c hc
          rcases List.mem_append.mp hc with hc1 | hc2
          · rcases List.mem_append.mp hc1 with hca | hcb
            · exact (show ∀ x ∈ "kind=".data, x ≠ '<' by decide) c hca
            · exact (tokenChar_props c (hk.2 c hcb)).1
          · rcases List.mem_cons.mp hc2 with rfl | hc3
            · decide
            · rcases List.mem_append.mp hc3 with hca | hcb
              · exact (show ∀ x ∈ "source=".data, x ≠ '<' by decide) c hca
              · exact (tokenChar_props c (hsrc.2 c hcb)).1
        · exact cleanPre_of_head_ne '<' _ TOOL_BLOCK_META_SUFFIX.data _ (by decide)
    · refine (cleanPre_append_iff _ _ _ _).mpr ⟨?_, ?_⟩
      · exact cleanPre_of_head_ne '<' _ ['\n'] _ (by decide)
      · refine (cleanPre_append_iff _ _ _ _).mpr ⟨?_, ?_⟩
        · rw [show (['\n'] ++ ('<' :: "!--TOOL_CALL_END-->".data ++ ['\n'])) =
            '\n' :: ('<' :: "!--TOOL_CALL_END-->".data ++ ['\n']) from rfl]
          apply cleanPre_of_no_contains '\n' _ (by decide)
          rw [← hEc]
          exact hnoEnd
        · exact cleanPre_of_head_ne '<' _ ['\n'] _ (by decide)

/-- At any fuel, the splitter finds nothing in the trailing `"\n"`. -/
theorem splitLoop_newline : ∀ f, splitLoop f ['\n'] = [] := by
  intro f
  cases f <;> rfl

theorem splitLoop_step (f : Nat) (l pre rest1 body rest2 : List Char)
    (h1 : breakAtSeq TOOL_CALL_START_MARKER.data l = some (pre, rest1))
    (h2 : breakAtSeq TOOL_CALL_END_MARKER.data rest1 = some (body, rest2)) :
    splitLoop (f + 1) l = textSegsOf pre ++ toolSegOf body ++ splitLoop f rest2 := by
  simp only [splitLoop, h1, h2]

/-- Round trip: splitting a well-formed wrapped tool block yields exactly
one tool segment carrying the wrapped kind, source, and stripped content. -/
theorem wrap_split_round_trip (content kind source : String)
    (hk : tokenOk kind) (hsrc : tokenOk source)
    (hbody : stripList content.data ≠ [])
    (hnoEnd : containsSeq (stripList content.data)
      TOOL_CALL_END_MARKER.data = false) :
    split_content_with_tool_blocks (wrapToolBlock content kind (some source)) =
      [Segment.tool kind (some source) (pystripStr content)] := by
  have hbs : (pystripStr content == "") = false := by
    apply beq_eq_false_iff_ne.mpr
    intro h
    exact hbody (congrArg String.data h)
  have hsneq : (source != "") = true := bne_iff_ne.mpr hsrc.1
  have hW : wrapToolBlock content kind (some source) =
      TOOL_CALL_START_MARKER ++ "\n" ++ (TOOL_BLOCK_META_PREFIX ++
        ("kind=" ++ kind ++ "|" ++ ("source=" ++ source)) ++
        TOOL_BLOCK_META_SUFFIX ++ "\n") ++ pystripStr content ++ "\n" ++
      TOOL_CALL_END_MARKER ++ "\n" := by
    rw [wrapToolBlock]
    simp only [hbs, Bool.false_eq_true, if_false, hsneq, if_true, joinSep]
  have hnl : ("\n" : String).data = ['\n'] := rfl
  have hbar : ("|" : String).data = ['|'] := rfl
  have hpd : (pystripStr content).data = stripList content.data := rfl
  have hWd : (wrapToolBlock content kind (some source)).data =
      TOOL_CALL_START_MARKER.data ++
        (('\n' :: ((TOOL_BLOCK_META_PREFIX.data ++
            ((("kind=".data ++ kind.data) ++
              ('|' :: ("source=".data ++ source.data))) ++
              TOOL_BLOCK_META_SUFFIX.data)) ++
          ('\n' :: (stripList content.data ++ ['\n'])))) ++
          (TOOL_CALL_END_MARKER.data ++ ['\n'])) := by
    rw [hW]
    simp only [string_data_append, hnl, hbar, hpd, List.append_assoc,
      List.singleton_append, List.cons_append, List.nil_append]
  have hSd : TOOL_CALL_START_MARKER.data = '<' :: "!--TOOL_CALL_START-->".data := by
    decide
  have hfuelShape : (wrapToolBlock content kind (some source)).data =
      '<' :: ("!--TOOL_CALL_START-->".data ++
        (('\n' :: ((TOOL_BLOCK_META_PREFIX.data ++
            ((("kind=".data ++ kind.data) ++
              ('|' :: ("source=".data ++ source.data))) ++
              TOOL_BLOCK_META_SUFFIX.data)) ++
          ('\n' :: (stripList content.data ++ ['\n'])))) ++
          (TOOL_CALL_END_MARKER.data ++ ['\n']))) := by
    rw [hWd, hSd]
    exact List.cons_append _ _ _
  have hne : (wrapToolBlock content kind (some source) == "") = false := by
    apply beq_eq_false_iff_ne.mpr
    intro h
    have h2 := congrArg String.data h
    rw [hfuelShape] at h2
    exact absurd h2 (by simp)
  have hbreakStart : breakAtSeq TOOL_CALL_START_MARKER.data
      ('<' :: ("!--TOOL_CALL_START-->".data ++
        (('\n' :: ((TOOL_BLOCK_META_PREFIX.data ++
            ((("kind=".data ++ kind.data) ++
              ('|' :: ("source=".data ++ source.data))) ++
              TOOL_BLOCK_META_SUFFIX.data)) ++
          ('\n' :: (stripList content.data ++ ['\n'])))) ++
          (TOOL_CALL_END_MARKER.data ++ ['\n'])))) =
      some ([], (('\n' :: ((TOOL_BLOCK_META_PREFIX.data ++
            ((("kind=".data ++ kind.data) ++
              ('|' :: ("source=".data ++ source.data))) ++
              TOOL_BLOCK_META_SUFFIX.data)) ++
          ('\n' :: (stripList content.data ++ ['\n'])))) ++
          (TOOL_CALL_END_MARKER.data ++ ['\n']))) := by
    rw [show ('<' :: ("!--TOOL_CALL_START-->".data ++
        (('\n' :: ((TOOL_BLOCK_META_PREFIX.data ++
            ((("kind=".data ++ kind.data) ++
              ('|' :: ("source=".data ++ source.data))) ++
              TOOL_BLOCK_META_SUFFIX.data)) ++
          ('\n' :: (stripList content.data ++ ['\n'])))) ++
          (TOOL_CALL_END_MARKER.data ++ ['\n'])))) =
      TOOL_CALL_START_MARKER.data ++
        (('\n' :: ((TOOL_BLOCK_META_PREFIX.data ++
            ((("kind=".data ++ kind.data) ++
              ('|' :: ("source=".data ++ source.data))) ++
              TOOL_BLOCK_META_SUFFIX.data)) ++
          ('\n' :: (stripList content.data ++ ['\n'])))) ++
          (TOOL_CALL_END_MARKER.data ++ ['\n'])) from by
      rw [hSd]
      exact (List.cons_append _ _ _).symm]
    rw [breakAtSeq_of_startsWith _ _ (startsWithSeq_append_self _ _),
      List.drop_left]
  have hbreakEnd : breakAtSeq TOOL_CALL_END_MARKER.data
      ((('\n' :: ((TOOL_BLOCK_META_PREFIX.data ++
            ((("kind=".data ++ kind.data) ++
              ('|' :: ("source=".data ++ source.data))) ++
              TOOL_BLOCK_META_SUFFIX.data)) ++
          ('\n' :: (stripList content.data ++ ['\n'])))) ++
          (TOOL_CALL_END_MARKER.data ++ ['\n']))) =
      some (('\n' :: ((TOOL_BLOCK_META_PREFIX.data ++
            ((("kind=".data ++ kind.data) ++
              ('|' :: ("source=".data ++ source.data))) ++
              TOOL_BLOCK_META_SUFFIX.data)) ++
          ('\n' :: (stripList content.data ++ ['\n'])))), ['\n']) := by
    rw [cleanPre_skip _ _ _
      (clean_region_end kind source (stripList content.data) hk hsrc hnoEnd)]
    rw [breakAtSeq_of_startsWith _ _ (startsWithSeq_append_self _ _),
      List.drop_left]
    simp
  have hrevne : (stripList content.data).reverse ≠ [] := by
    intro h
    exact hbody (List.reverse_eq_nil_iff.mp h)
  rcases hrev : (stripList content.data).reverse with _ | ⟨x, xt⟩
  · exact absurd hrev hrevne
  have hx : pyws x = false := stripList_rev_head_not_ws content.data x xt hrev
  have hPdc2 : TOOL_BLOCK_META_PREFIX.data =
      '<' :: "!--TOOL_BLOCK_META:".data := by decide
  have hstripR : stripList (('\n' :: ((TOOL_BLOCK_META_PREFIX.data ++
        ((("kind=".data ++ kind.data) ++
          ('|' :: ("source=".data ++ source.data))) ++
          TOOL_BLOCK_META_SUFFIX.data)) ++
      ('\n' :: (stripList content.data ++ ['\n']))))) =
      TOOL_BLOCK_META_PREFIX.data ++
        ((("kind=".data ++ kind.data) ++
          ('|' :: ("source=".data ++ source.data))) ++
          (TOOL_BLOCK_META_SUFFIX.data ++ ('\n' :: stripList content.data))) := by
    rw [show (TOOL_BLOCK_META_PREFIX.data ++
        ((("kind=".data ++ kind.data) ++
          ('|' :: ("source=".data ++ source.data))) ++
          TOOL_BLOCK_META_SUFFIX.data)) =
      '<' :: ("!--TOOL_BLOCK_META:".data ++
        ((("kind=".data ++ kind.data) ++
          ('|' :: ("source=".data ++ source.data))) ++
          TOOL_BLOCK_META_SUFFIX.data)) from by rw [hPdc2]; rfl]
    rw [strip_region _ _ x xt hrev hx, hPdc2]
    simp only [List.cons_append, List.append_assoc]
  have htool : toolSegOf (('\n' :: ((TOOL_BLOCK_META_PREFIX.data ++
        ((("kind=".data ++ kind.data) ++
          ('|' :: ("source=".data ++ source.data))) ++
          TOOL_BLOCK_META_SUFFIX.data)) ++
      ('\n' :: (stripList content.data ++ ['\n']))))) =
      [Segment.tool kind (some source) (pystripStr content)] := by
    rw [toolSegOf]
    rw [hstripR]
    rw [show (TOOL_BLOCK_META_PREFIX.data ++
        ((("kind=".data ++ kind.data) ++
          ('|' :: ("source=".data ++ source.data))) ++
          (TOOL_BLOCK_META_SUFFIX.data ++ ('\n' :: stripList content.data)))) =
      '<' :: ("!--TOOL_BLOCK_META:".data ++
        ((("kind=".data ++ kind.data) ++
          ('|' :: ("source=".data ++ source.data))) ++
          (TOOL_BLOCK_META_SUFFIX.data ++ ('\n' :: stripList content.data))))
      from by rw [hPdc2]; rfl]
    rw [show (('<' :: ("!--TOOL_BLOCK_META:".data ++
        ((("kind=".data ++ kind.data) ++
          ('|' :: ("source=".data ++ source.data))) ++
          (TOOL_BLOCK_META_SUFFIX.data ++
            ('\n' :: stripList content.data))))).isEmpty) = false from rfl]
    rw [show ('<' :: ("!--TOOL_BLOCK_META:".data ++
        ((("kind=".data ++ kind.data) ++
          ('|' :: ("source=".data ++ source.data))) ++
          (TOOL_BLOCK_META_SUFFIX.data ++ ('\n' :: stripList content.data))))) =
      TOOL_BLOCK_META_PREFIX.data ++
        ((("kind=".data ++ kind.data) ++
          ('|' :: ("source=".data ++ source.data))) ++
          (TOOL_BLOCK_META_SUFFIX.data ++ ('\n' :: stripList content.data)))
      from by rw [hPdc2]; rfl]
    rw [parse_wrapped_block kind source (stripList content.data) hk hsrc hbody
      (fun c t h => stripList_head_not_ws content.data c t h)]
    rfl
  rw [split_content_with_tool_blocks]
  rw [if_neg (by simp [hne])]
  rw [hfuelShape, List.length_cons,
    splitLoop_step _ _ _ _ _ _ hbreakStart hbreakEnd, splitLoop_newline]
  rw [show textSegsOf [] = [] from rfl]
  rw [htool]
  simp

theorem string_append_assoc (a b c : String) : (a ++ b) ++ c = a ++ (b ++ c) := by
  cases a with
  | mk x =>
    cases b with
    | mk y =>
      cases c with
      | mk z =>
        show String.mk ((x ++ y) ++ z) = String.mk (x ++ (y ++ z))
        rw [List.append_assoc]

theorem prettyCore_keeps_header : ∀ (args : List (String × String))
    (init : String), ∃ rest,
    args.foldl
      (fun out kv =>
        if kv.1 == "code" || startsCodey kv.2 then
          out ++ "**📦 Args:** `" ++ kv.1 ++ "`:\n" ++ "```python\n" ++ kv.2 ++ "\n```\n"
        else
          out ++ "**📦 Args:** `" ++ kv.1 ++ "`: `" ++ kv.2 ++ "`\n\n")
      init = init ++ rest := by
  intro args
  induction args with
  | nil =>
    intro init
    exact ⟨"", (string_append_empty init).symm⟩
  | cons kv rest ih =>
    intro init
    rw [List.foldl_cons]
    by_cases hc : (kv.1 == "code" || startsCodey kv.2) = true
    · rw [if_pos hc]
      obtain ⟨r, hr⟩ := ih
        (init ++ "**📦 Args:** `" ++ kv.1 ++ "`:\n" ++ "```python\n" ++ kv.2 ++ "\n```\n")
      refine ⟨"**📦 Args:** `" ++ kv.1 ++ "`:\n" ++ "```python\n" ++ kv.2 ++
        "\n```\n" ++ r, ?_⟩
      rw [hr]
      simp only [string_append_assoc]
    · rw [if_neg hc]
      obtain ⟨r, hr⟩ := ih (init ++ "**📦 Args:** `" ++ kv.1 ++ "`: `" ++ kv.2 ++ "`\n\n")
      refine ⟨"**📦 Args:** `" ++ kv.1 ++ "`: `" ++ kv.2 ++ "`\n\n" ++ r, ?_⟩
      rw [hr]
      simp only [string_append_assoc]

theorem prettyCore_strip_ne (name : String) (args : List (String × String)) :
    stripList (prettyCore name args).data ≠ [] := by
  obtain ⟨rest, hr⟩ := prettyCore_keeps_header args ("🔧 Tool: `" ++ name ++ "`\n\n")
  apply stripList_ne_nil
  refine ⟨'🔧', ?_, by decide⟩
  rw [prettyCore, hr]
  rw [show (("🔧 Tool: `" ++ name ++ "`\n\n") ++ rest).data =
    "🔧 Tool: `".data ++ (name.data ++ ("`\n\n".data ++ rest.data)) from by
      simp only [string_data_append, List.append_assoc]]
  exact List.mem_append.mpr (Or.inl (by decide))

/-! ## Claim C10 — tool-block round trip -/

/-- Claim C10, as stated, is false on the code for arbitrary kind strings:
wrapping content under the kind `"a|b"` and parsing it back yields a tool
segment whose kind is `"a"`, because `_parse_tool_block_metadata` splits the
metadata on `"|"`. -/
theorem claim10_counterexample :
    split_content_with_tool_blocks (wrapToolBlock " x " "a|b" (some "t")) =
      [Segment.tool "a" (some "t") "x"] ∧ ("a" : String) ≠ "a|b" := by
  exact ⟨by decide, by decide⟩

/-- Claim C10 (amended: kind and source restricted to non-empty
alphanumeric/underscore tokens — the metadata syntax cannot represent
arbitrary strings, as the counterexample shows — and content required to
strip non-empty and marker-free): parsing the wrapped block yields exactly
one tool segment whose kind, source and content equal the wrapped kind,
source and stripped content; in particular a pretty-printed tool call
parses back as one tool segment with kind `"call"` and source the tool
name. -/
theorem claim10_round_trip :
    (∀ content kind source : String, tokenOk kind → tokenOk source →
      pystripStr content ≠ "" →
      containsSeq (stripList content.data) TOOL_CALL_START_MARKER.data = false →
      containsSeq (stripList content.data) TOOL_CALL_END_MARKER.data = false →
      split_content_with_tool_blocks (wrapToolBlock content kind (some source)) =
        [Segment.tool kind (some source) (pystripStr content)]) ∧
    (∀ (name : String) (args : List (String × String)), tokenOk name →
      containsSeq (stripList (prettyCore name args).data)
        TOOL_CALL_START_MARKER.data = false →
      containsSeq (stripList (prettyCore name args).data)
        TOOL_CALL_END_MARKER.data = false →
      split_content_with_tool_blocks (pretty_print_tool_call name args) =
        [Segment.tool "call" (some name) (pystripStr (prettyCore name args))]) := by
  have hmain : ∀ content kind source : String, tokenOk kind → tokenOk source →
      stripList content.data ≠ [] →
      containsSeq (stripList content.data) TOOL_CALL_END_MARKER.data = false →
      split_content_with_tool_blocks (wrapToolBlock content kind (some source)) =
        [Segment.tool kind (some source) (pystripStr content)] :=
    fun content kind source hk hsrc hb hnoEnd =>
      wrap_split_round_trip content kind source hk hsrc hb hnoEnd
  constructor
  · intro content kind source hk hsrc hps _ hnoEnd
    apply hmain content kind source hk hsrc ?_ hnoEnd
    intro h
    apply hps
    show String.mk (stripList content.data) = ""
    rw [h]
  · intro name args hname _ hnoEnd
    exact hmain (prettyCore name args) "call" name (by decide) hname
      (prettyCore_strip_ne name args) hnoEnd

/-- Witness for C10 at concrete inputs: a wrapped `"hello"` block under
kind `"call"` and source `"mytool"`, and the pretty-printed tool call
`calc(x=1)`. -/
theorem claim10_witness :
    split_content_with_tool_blocks (wrapToolBlock "hello" "call" (some "mytool")) =
      [Segment.tool "call" (some "mytool") (pystripStr "hello")] ∧
    split_content_with_tool_blocks (pretty_print_tool_call "calc" [("x", "1")]) =
      [Segment.tool "call" (some "calc")
        (pystripStr (prettyCore "calc" [("x", "1")]))] := by
  refine ⟨claim10_round_trip.1 "hello" "call" "mytool" (by decide) (by decide)
    (by decide) (by decide) (by decide), ?_⟩
  exact claim10_round_trip.2 "calc" [("x", "1")] (by decide) (by decide) (by decide)
